import Mathlib

/-!
Surround-vote detection (eth2-surround).

A shallow embedding of `detection/detection.go` (the distance-tiered Manhattan
bit filter and the grouped dispatch layer).

Conventions of the embedding:

* `Source`, `Target`, `Delta`, `MHIndex`, `ValidatorIndex` are Go `uint64`;
  they are naturals here and every arithmetic operation that can wrap is
  written with an explicit `% 2 ^ 64`.
* A Go `panic` is an `Except.error` carrying the `Panic` that was raised.
  Operations that mutate a receiver return the receiver as it is at the point
  of return *or* of the panic, paired with the outcome.
* A `[]byte` is a `List Nat`; a nil slice and an empty slice are both `[]`.
* A `*Focus` is an `Option Focus` (`none` is the nil pointer).
-/

namespace Detection

/-- The run-time failures of the package, one per `panic` site, plus the nil
pointer dereference of the Go runtime. -/
inductive Panic where
  /-- Raised by `CalcDelta`: "invalid source target pair!". -/
  | invalidSourceTarget
  /-- Raised by `MHBitfield.Check`: "out of range lookup". -/
  | outOfRangeLookup
  /-- Raised by `MHBitfield.Set`: "out of range set". -/
  | outOfRangeSet
  /-- Raised by `MHDetectionBlock.Add`: "invalid attestation". -/
  | invalidAttestation
  /-- Raised by `NewGroupedCheck`: "group size cannot be 0". -/
  | groupSizeZero
  /-- The Go runtime panic on a field access through a nil pointer. -/
  | nilDereference
  deriving DecidableEq, Repr

/-- `func Manhatten(s Source, t Target) MHIndex`: `MHIndex(s) + MHIndex(t)`. -/
def Manhatten (s t : Nat) : Nat := (s + t) % 2 ^ 64

/-- `func CalcDelta(s Source, t Target) Delta`. -/
def CalcDelta (s t : Nat) : Except Panic Nat :=
  if s ≥ t then .error .invalidSourceTarget
  else .ok ((t + 2 ^ 64 - s) % 2 ^ 64)

/-- `func ManhattenSurroundeeRange(s Source, t Target, d Delta)`. The first
statement `s -= 1` wraps at `s = 0`. -/
def ManhattenSurroundeeRange (s t d : Nat) : Except Panic (Nat × Nat) :=
  let s1 := (s + 2 ^ 64 - 1) % 2 ^ 64
  match CalcDelta s1 t with
  | .error e => .error e
  | .ok maxDelta =>
    let d1 := if maxDelta > d then maxDelta else d
    .ok ((s1 * 2 + d1) % 2 ^ 64, (t * 2 % 2 ^ 64 + 2 ^ 64 - d1) % 2 ^ 64)

/-- `func ManhattenSurrounderRange(s Source, t Target, d Delta)`. -/
def ManhattenSurrounderRange (s t d : Nat) : Except Panic (Nat × Nat) :=
  match CalcDelta s t with
  | .error e => .error e
  | .ok minDelta =>
    let d1 := if minDelta < d then minDelta else d
    let d2 := if d1 > t then t * 2 % 2 ^ 64 else d1
    .ok ((t * 2 % 2 ^ 64 + 2 ^ 64 - d2) % 2 ^ 64, (s * 2 + d2) % 2 ^ 64)

/-- `type MHBitfield []byte`. -/
abbrev MHBitfield := List Nat

/-- `func NewMHBitfield(maxTarget Target) MHBitfield`:
`make(MHBitfield, ((maxTarget*2)+7)/8)`, all bytes zero. -/
def NewMHBitfield (maxTarget : Nat) : MHBitfield :=
  List.replicate (((maxTarget * 2 % 2 ^ 64 + 7) % 2 ^ 64) / 8) 0

/-- `func (b MHBitfield) Check(i MHIndex) bool`. The bound `len(b)*8` is an
`int` product that cannot overflow for a slice that fits in memory. -/
def MHBitfield.Check (b : MHBitfield) (i : Nat) : Except Panic Bool :=
  if i ≥ b.length * 8 then .error .outOfRangeLookup
  else .ok (((b.getD (i >>> 3) 0) &&& (1 <<< (i &&& 7))) != 0)

/-- `func (b MHBitfield) Set(i MHIndex)`. The slice is updated in place; the
embedding returns the slice after the call. -/
def MHBitfield.Set (b : MHBitfield) (i : Nat) : MHBitfield × Except Panic Unit :=
  if i ≥ b.length * 8 then (b, .error .outOfRangeSet)
  else (b.set (i >>> 3) ((b.getD (i >>> 3) 0) ||| (1 <<< (i &&& 7))), .ok ())

/-- `type Root [32]byte`. -/
abbrev Root := List Nat

/-- `type AttestationData struct`. -/
structure AttestationData where
  source : Nat
  target : Nat
  block : Root
  deriving DecidableEq, Repr

/-- `type ValidatorIndexSet []ValidatorIndex`. -/
abbrev ValidatorIndexSet := List Nat

/-- `func (vis ValidatorIndexSet) QueryRange(start, end ValidatorIndex)`: the
`for … range` loop appending the indices that pass the test. -/
def ValidatorIndexSet.QueryRange (vis : ValidatorIndexSet) (start stop : Nat) :
    ValidatorIndexSet :=
  vis.foldl (fun out vi => if vi ≥ start ∧ vi < stop then out ++ [vi] else out) []

/-- `type Focus struct`. -/
structure Focus where
  surrounding : ValidatorIndexSet
  surroundedBy : ValidatorIndexSet
  double : ValidatorIndexSet
  deriving DecidableEq, Repr

/-- `func NewFocus(validators []ValidatorIndex) *Focus`. -/
def NewFocus (validators : List Nat) : Focus :=
  { surrounding := validators, surroundedBy := validators, double := validators }

/-- `func (f *Focus) IsEmpty() bool`. -/
def Focus.IsEmpty (f : Option Focus) : Bool :=
  match f with
  | none => true
  | some f => f.surrounding.length == 0 && f.surroundedBy.length == 0 && f.double.length == 0

/-- `func (f *Focus) QueryRange(start, end ValidatorIndex) *Focus`, on a
non-nil receiver. -/
def Focus.QueryRange (f : Focus) (start stop : Nat) : Focus :=
  { surrounding := ValidatorIndexSet.QueryRange f.surrounding start stop
    surroundedBy := ValidatorIndexSet.QueryRange f.surroundedBy start stop
    double := ValidatorIndexSet.QueryRange f.double start stop }

/-- `type SlashType byte` with its three constants. -/
inductive SlashType where
  | Surrounding
  | SurroundedBy
  | Double
  deriving DecidableEq, Repr

/-- `type Slash struct`. -/
structure Slash where
  index : Nat
  root : Root
  slashType : SlashType
  deriving DecidableEq, Repr

/-- `type FuzzyDetector interface`: an implementation is a state type with
its `FuzzyCheckAndAdd` method. -/
class FuzzyDetector (γ : Type) where
  FuzzyCheckAndAdd : γ → Nat → Nat → Option Focus → γ × Except Panic (Option Focus)

/-- `type Detector interface`: an implementation is a state type with its
`CheckAndAdd` method. -/
class Detector (δ : Type) where
  CheckAndAdd : δ → AttestationData → Option Focus → δ × Except Panic (List Slash)

/-- `type GroupedDetectionLayer struct`. -/
structure GroupedDetectionLayer (γ δ : Type) where
  GroupSize : Nat
  GateKeeper : γ
  Groups : List δ

/-- `type MHDetectionBlock struct`. -/
structure MHDetectionBlock where
  MinDistance : Nat
  MaxDistance : Nat
  bits : MHBitfield
  deriving DecidableEq, Repr

/-- `func (db *MHDetectionBlock) Applicable(source Source, target Target) bool`. -/
def MHDetectionBlock.Applicable (db : MHDetectionBlock) (source target : Nat) :
    Except Panic Bool :=
  match CalcDelta source target with
  | .error e => .error e
  | .ok d => .ok (decide (d ≥ db.MinDistance) && decide (d < db.MaxDistance))

/-- `func (db *MHDetectionBlock) Add(source Source, target Target)`. -/
def MHDetectionBlock.Add (db : MHDetectionBlock) (source target : Nat) :
    MHDetectionBlock × Except Panic Unit :=
  match db.Applicable source target with
  | .error e => (db, .error e)
  | .ok false => (db, .error .invalidAttestation)
  | .ok true =>
    let m := Manhatten source target
    match db.bits.Set m with
    | (bits1, r) => ({ db with bits := bits1 }, r)

/-- The `for i := start; i < end; i++` loop of `CheckRange`, with `n` the
number of iterations left (`end - i`). -/
def MHDetectionBlock.CheckRange.loop (bits : MHBitfield) : Nat → Nat → Except Panic Bool
  | _, 0 => .ok false
  | i, n + 1 =>
    match bits.Check i with
    | .error e => .error e
    | .ok true => .ok true
    | .ok false => MHDetectionBlock.CheckRange.loop bits (i + 1) n

/-- `func (db *MHDetectionBlock) CheckRange(start, end MHIndex) bool`. -/
def MHDetectionBlock.CheckRange (db : MHDetectionBlock) (start stop : Nat) :
    Except Panic Bool :=
  MHDetectionBlock.CheckRange.loop db.bits start (stop - start)

/-- `type MHDetectionBlockStack struct`. -/
structure MHDetectionBlockStack where
  blocks : List MHDetectionBlock
  deriving DecidableEq, Repr

/-- The `for _, d := range gradient` loop of `NewMHDetectionBlockStack`,
threading the locals `min` and `bs`. -/
def NewMHDetectionBlockStack.loop (maxTarget : Nat) :
    List Nat → Nat → MHDetectionBlockStack → MHDetectionBlockStack
  | [], _, bs => bs
  | d :: rest, minD, bs =>
    NewMHDetectionBlockStack.loop maxTarget rest ((minD + d) % 2 ^ 64)
      { blocks := bs.blocks ++
          [{ MinDistance := minD
             MaxDistance := (minD + d) % 2 ^ 64
             bits := NewMHBitfield maxTarget }] }

/-- The value of the local variable `bs` of `NewMHDetectionBlockStack` when
its body ends. -/
def NewMHDetectionBlockStack.bs (gradient : List Nat) (maxTarget : Nat) :
    MHDetectionBlockStack :=
  NewMHDetectionBlockStack.loop maxTarget gradient 0 { blocks := [] }

/-- `func NewMHDetectionBlockStack(gradient []Delta, maxTarget Target)`: the
signature has no result, and the body has no `return`; the local `bs` is
dropped when the body ends. -/
def NewMHDetectionBlockStack (gradient : List Nat) (maxTarget : Nat) : Unit :=
  let _bs := NewMHDetectionBlockStack.bs gradient maxTarget
  ()

/-- How one iteration of the band loop of `FuzzyCheckAndAdd` ends: it falls
through to the next band, or it writes a field of `out` and executes `break`. -/
inductive BandExit where
  | next
  | hitSurroundedBy
  | hitSurrounding
  deriving DecidableEq, Repr

/-- The surrounder test of one band: `if d < b.MaxDistance { start, end :=
ManhattenSurrounderRange(...); if b.CheckRange(start, end) ... }`. -/
def FuzzyCheckAndAdd.surrounderHit (b : MHDetectionBlock) (source target d : Nat) :
    Except Panic Bool :=
  if d < b.MaxDistance then
    match ManhattenSurrounderRange source target b.MaxDistance with
    | .error e => .error e
    | .ok (start, stop) => b.CheckRange start stop
  else .ok false

/-- The surroundee test of one band: `if d > b.MinDistance { start, end :=
ManhattenSurroundeeRange(...); if b.CheckRange(start, end) ... }`. -/
def FuzzyCheckAndAdd.surroundeeHit (b : MHDetectionBlock) (source target d : Nat) :
    Except Panic Bool :=
  if d > b.MinDistance then
    match ManhattenSurroundeeRange source target b.MinDistance with
    | .error e => .error e
    | .ok (start, stop) => b.CheckRange start stop
  else .ok false

/-- The body of the band loop of `FuzzyCheckAndAdd` on the band `b`. -/
def FuzzyCheckAndAdd.body (b : MHDetectionBlock) (source target d : Nat) :
    MHDetectionBlock × Except Panic BandExit :=
  match (if d ≥ b.MinDistance ∧ d < b.MaxDistance then b.Add source target
         else (b, .ok ())) with
  | (b1, .error e) => (b1, .error e)
  | (b1, .ok _) =>
    match FuzzyCheckAndAdd.surrounderHit b1 source target d with
    | .error e => (b1, .error e)
    | .ok true => (b1, .ok .hitSurroundedBy)
    | .ok false =>
      match FuzzyCheckAndAdd.surroundeeHit b1 source target d with
      | .error e => (b1, .error e)
      | .ok true => (b1, .ok .hitSurrounding)
      | .ok false => (b1, .ok .next)

/-- The `for i := range bs.blocks` loop of `FuzzyCheckAndAdd` over the bands
not yet visited; `out` is the output focus built so far. -/
def FuzzyCheckAndAdd.loop (source target d : Nat) (focus : Focus) :
    List MHDetectionBlock → Focus → List MHDetectionBlock × Except Panic Focus
  | [], out => ([], .ok out)
  | b :: rest, out =>
    match FuzzyCheckAndAdd.body b source target d with
    | (b1, .error e) => (b1 :: rest, .error e)
    | (b1, .ok .hitSurroundedBy) =>
      (b1 :: rest, .ok { out with surroundedBy := focus.surroundedBy })
    | (b1, .ok .hitSurrounding) =>
      (b1 :: rest, .ok { out with surrounding := focus.surrounding })
    | (b1, .ok .next) =>
      match FuzzyCheckAndAdd.loop source target d focus rest out with
      | (rest1, r) => (b1 :: rest1, r)

/-- `func (bs *MHDetectionBlockStack) FuzzyCheckAndAdd(source, target, focus)`.
The closing `log.Println` has no effect on the state or the result. -/
def MHDetectionBlockStack.FuzzyCheckAndAdd (bs : MHDetectionBlockStack)
    (source target : Nat) (focus : Option Focus) :
    MHDetectionBlockStack × Except Panic Focus :=
  match CalcDelta source target with
  | .error e => (bs, .error e)
  | .ok d =>
    match focus with
    | none => (bs, .error .nilDereference)
    | some f =>
      match FuzzyCheckAndAdd.loop source target d f bs.blocks
          { surrounding := [], surroundedBy := [], double := f.double } with
      | (blocks1, r) => ({ blocks := blocks1 }, r)

instance : FuzzyDetector MHDetectionBlockStack where
  FuzzyCheckAndAdd bs source target focus :=
    match bs.FuzzyCheckAndAdd source target focus with
    | (bs1, .error e) => (bs1, .error e)
    | (bs1, .ok out) => (bs1, .ok (some out))

/-- `type DetectorFactory func() Detector`: a closure, so a call may change
the state `φ` it closes over. The loop `for i := uint64(0); i < count; i++
{ res.Groups[i] = next() }` of `NewGroupedCheck`. -/
def NewGroupedCheck.fill {φ δ : Type} (next : φ → φ × δ) : Nat → φ → φ × List δ
  | 0, st => (st, [])
  | n + 1, st =>
    match next st with
    | (st1, g) =>
      match NewGroupedCheck.fill next n st1 with
      | (st2, gs) => (st2, g :: gs)

/-- `func NewGroupedCheck(size, total ValidatorIndex, gate FuzzyDetector,
next DetectorFactory) *GroupedDetectionLayer`. After the guard `size` is
positive, so `total + size - 1` is the wrapped sum less one. -/
def NewGroupedCheck {γ φ δ : Type} (size total : Nat) (gate : γ)
    (next : φ → φ × δ) (st : φ) : φ × Except Panic (GroupedDetectionLayer γ δ) :=
  if size == 0 then (st, .error .groupSizeZero)
  else
    let count := (((total + size) % 2 ^ 64 + 2 ^ 64 - 1) % 2 ^ 64) / size
    let filled := NewGroupedCheck.fill next count st
    (filled.1, .ok { GroupSize := size, GateKeeper := gate, Groups := filled.2 })

/-- The `for _, g := range gd.Groups` loop of `GroupedDetectionLayer.CheckAndAdd`
over the groups not yet visited, threading the locals `start`, `end`, `out`. -/
def GroupedDetectionLayer.CheckAndAdd.loop {δ : Type} [Detector δ] (groupSize : Nat)
    (att : AttestationData) (focus : Focus) :
    List δ → Nat → Nat → List Slash → List δ × Except Panic (List Slash)
  | [], _, _, out => ([], .ok out)
  | g :: rest, start, stop, out =>
    let subFocus := focus.QueryRange start stop
    if Focus.IsEmpty (some subFocus) then
      match GroupedDetectionLayer.CheckAndAdd.loop groupSize att focus rest start stop out with
      | (rest1, r) => (g :: rest1, r)
    else
      match Detector.CheckAndAdd g att (some subFocus) with
      | (g1, .error e) => (g1 :: rest, .error e)
      | (g1, .ok slashings) =>
        match GroupedDetectionLayer.CheckAndAdd.loop groupSize att focus rest
            stop ((stop + groupSize) % 2 ^ 64) (out ++ slashings) with
        | (rest1, r) => (g1 :: rest1, r)

/-- `func (gd *GroupedDetectionLayer) CheckAndAdd(att *AttestationData,
focus *Focus) (out []Slash)`. -/
def GroupedDetectionLayer.CheckAndAdd {γ δ : Type} [FuzzyDetector γ] [Detector δ]
    (gd : GroupedDetectionLayer γ δ) (att : AttestationData) (focus : Option Focus) :
    GroupedDetectionLayer γ δ × Except Panic (List Slash) :=
  match FuzzyDetector.FuzzyCheckAndAdd gd.GateKeeper att.source att.target focus with
  | (gate1, .error e) => ({ gd with GateKeeper := gate1 }, .error e)
  | (gate1, .ok focus1) =>
    if Focus.IsEmpty focus1 then ({ gd with GateKeeper := gate1 }, .ok [])
    else
      match focus1 with
      | none => ({ gd with GateKeeper := gate1 }, .error .nilDereference)
      | some f =>
        match GroupedDetectionLayer.CheckAndAdd.loop gd.GroupSize att f gd.Groups
            0 gd.GroupSize [] with
        | (groups1, r) => ({ gd with GateKeeper := gate1, Groups := groups1 }, r)

/-- A gate that returns its input focus unchanged and keeps no state. -/
structure PassGate where
  deriving DecidableEq, Repr

instance : FuzzyDetector PassGate where
  FuzzyCheckAndAdd g _ _ focus := (g, .ok focus)

/-- A group store that records every call it receives, in order, and reports
no slash: its state is the log of its invocations. -/
structure RecordingStore where
  calls : List (AttestationData × Option Focus)
  deriving DecidableEq, Repr

instance : Detector RecordingStore where
  CheckAndAdd st att focus := ({ calls := st.calls ++ [(att, focus)] }, .ok [])

/-- A factory closure that counts its calls and hands out, at its `n`-th call,
a fresh recording store; used to observe `NewGroupedCheck`. -/
def countingFactory (n : Nat) : Nat × RecordingStore := (n + 1, { calls := [] })

/-- The bit of the bitfield at Manhattan index `i`, as the bit `i % 8` of the
byte `i / 8`. -/
def MHBitfield.bitAt (b : MHBitfield) (i : Nat) : Bool :=
  (b.getD (i / 8) 0).testBit (i % 8)

end Detection

/-!
The quadrant geo-index filter of `geo_bits.go` (package `eth2_surround`).

* `Epoch` and `GeoIndex` are Go `uint64`, `depth` is a Go `uint8`; they are
  naturals here, with the wrapping written out.
* `GeoBitfield` is a fixed array of `2^23` bytes; it is a function from the
  byte index to the byte, every access guarded by the bounds check that Go
  makes. Cells at indices outside the array are never read or written.
* `InterleaveUint32` is not among the sources; the functions that call it take
  it as the parameter `il`.
-/

namespace Eth2Surround

/-- The run-time failures of the package: its three `panic` sites, the bounds
checks of the Go runtime, and the exhaustion of the bound on nested calls that
the embedding of the recursive `match` carries. -/
inductive GeoPanic where
  /-- Raised by `NewGeoIndex`: "insufficient offset to handle geo index within range". -/
  | insufficientOffset
  /-- Raised by `MoveOffset`: "cannot move to offset, out of range data". -/
  | offsetOutOfRange
  /-- Raised by `MoveOffset`: "for efficiency reasons, only offset in multiples
  of 8 are allowed". -/
  | offsetAlignment
  /-- The Go runtime panic on an array index outside the array. -/
  | indexOutOfRange
  /-- The Go runtime panic on a slice expression outside the array. -/
  | sliceOutOfRange
  /-- Not a Go panic: the nesting of `match` calls went beyond the bound given
  to the embedding. -/
  | nestingExceeded
  deriving DecidableEq, Repr

/-- `type Attestation struct`. -/
structure Attestation where
  Source : Nat
  Target : Nat
  StoragePtr : Nat
  deriving DecidableEq, Repr

/-- `const EPOCH_DISTANCE = 54000`. -/
def EPOCH_DISTANCE : Nat := 54000

/-- `const EPOCHS_PER_REFRESH = 1000`. -/
def EPOCHS_PER_REFRESH : Nat := 1000

/-- `const EPOCH_BITS = 16`. -/
def EPOCH_BITS : Nat := 16

/-- `const GEO_INDEX_BITS = EPOCH_BITS * 2`. -/
def GEO_INDEX_BITS : Nat := EPOCH_BITS * 2

/-- `const ZOOM = 10`. -/
def ZOOM : Nat := 10

/-- `const BIT_DEPTH = GEO_INDEX_BITS - ZOOM`. -/
def BIT_DEPTH : Nat := GEO_INDEX_BITS - ZOOM

/-- The length of `type GeoBitfield [1 << BIT_DEPTH << 1]byte`. -/
def GeoBitfieldLen : Nat := (1 <<< BIT_DEPTH) <<< 1

/-- `const MAX_MASK = (GeoIndex(1) << BIT_DEPTH) - 1`. -/
def MAX_MASK : Nat := (1 <<< BIT_DEPTH) - 1

/-- Modelled from the spec: `InterleaveUint32`, which `NewGeoIndex` calls and
whose source file is not among the sources. The spec says that the two 32-bit
offsets are bit-interleaved, the bits of each value alternated, into one
combined index; here bit `i` of the first value goes to bit `2 i` and bit `i`
of the second to bit `2 i + 1`. `n` is the number of bit pairs still to emit. -/
def InterleaveUint32.go : Nat → Nat → Nat → Nat
  | 0, _, _ => 0
  | n + 1, x, y => x % 2 + 2 * (y % 2) + 4 * InterleaveUint32.go n (x / 2) (y / 2)

/-- Modelled from the spec: `InterleaveUint32(x, y uint32) uint64`, the
interleaving of the 32 bits of `x` with the 32 bits of `y`. -/
def InterleaveUint32 (x y : Nat) : Nat := InterleaveUint32.go 32 x y

/-- `func NewGeoIndex(source Epoch, target Epoch, offset Epoch) GeoIndex`, with
`il` for `InterleaveUint32`. The subtractions wrap, the conversions to `uint32`
truncate, and the result of `il` is a `uint64`. -/
def NewGeoIndex (il : Nat → Nat → Nat) (source target offset : Nat) : Except GeoPanic Nat :=
  if (source + 2 ^ 64 - offset) % 2 ^ 64 ≥ EPOCH_DISTANCE ∨
      (target + 2 ^ 64 - offset) % 2 ^ 64 ≥ EPOCH_DISTANCE then
    .error .insufficientOffset
  else
    .ok ((il ((source + 2 ^ 64 - offset) % 2 ^ 64 % 2 ^ 32)
            ((target + 2 ^ 64 - offset) % 2 ^ 64 % 2 ^ 32) % 2 ^ 64) >>> ZOOM)

/-- `type GeoLookup struct`. -/
structure GeoLookup where
  bits : Nat → Nat
  offset : Nat

/-- The zero value of `GeoLookup`: every byte zero, offset zero. -/
def GeoLookup.zero : GeoLookup := { bits := fun _ => 0, offset := 0 }

/-- The built-in `copy(dst, src)` on byte slices: `dst` is the slice of length
`dstLen` starting at index `dstOff` of the array `arr`, `src` has length
`srcLen` and the element `src i` at position `i`; the first
`min dstLen srcLen` elements of `src` are written to `dst`. -/
def copyBytes (arr : Nat → Nat) (dstOff dstLen : Nat) (src : Nat → Nat) (srcLen : Nat) :
    Nat → Nat :=
  fun i => if dstOff ≤ i ∧ i < dstOff + min dstLen srcLen then src (i - dstOff) else arr i

/-- `func (gl *GeoLookup) MoveOffset(newOffset Epoch)`. `diff` is computed
after `gl.offset = newOffset`, from the offset as it is then; its conversion to
`int` is exact, the value being below `2^63`. -/
def GeoLookup.MoveOffset (gl : GeoLookup) (newOffset : Nat) :
    GeoLookup × Except GeoPanic Unit :=
  if newOffset < gl.offset ∨ newOffset ≥ (gl.offset + EPOCHS_PER_REFRESH) % 2 ^ 64 then
    (gl, .error .offsetOutOfRange)
  else if newOffset % 8 ≠ 0 then
    (gl, .error .offsetAlignment)
  else
    let gl1 : GeoLookup := { gl with offset := newOffset }
    let diff := ((((newOffset + 2 ^ 64 - gl1.offset) % 2 ^ 64) <<< EPOCH_BITS) % 2 ^ 64
      >>> ZOOM) / 8
    if diff > GeoBitfieldLen then (gl1, .error .sliceOutOfRange)
    else
      let bits1 := copyBytes gl1.bits 0 GeoBitfieldLen gl1.bits diff
      let bits2 := copyBytes bits1 (GeoBitfieldLen - diff) diff (fun _ => 0) diff
      ({ gl1 with bits := bits2 }, .ok ())

/-- `func Bitmapping(index GeoIndex, depth uint8) (byteIndex uint64, bitIndex
uint64)`. `BIT_DEPTH - depth` is a `uint8` difference and wraps. -/
def Bitmapping (index depth : Nat) : Nat × Nat :=
  let level := (1 <<< depth) % 2 ^ 64
  let levelIndex := index >>> ((BIT_DEPTH + 256 - depth) % 256)
  let bitfieldIndex := level ||| levelIndex
  (bitfieldIndex >>> 3, bitfieldIndex &&& 7)

/-- `func (gl *GeoLookup) Hit(index GeoIndex, depth uint8) bool`. -/
def GeoLookup.Hit (gl : GeoLookup) (index depth : Nat) : Except GeoPanic Bool :=
  let byteIndex := (Bitmapping index depth).1
  let bitIndex := (Bitmapping index depth).2
  if byteIndex ≥ GeoBitfieldLen then .error .indexOutOfRange
  else .ok (((gl.bits byteIndex >>> bitIndex) &&& 1) == 1)

/-- The body of the loop of `AddAttestation` at depth `i`:
`gl.bits[byteIndex] |= 1 << bitIndex`. -/
def GeoLookup.setBit (gl : GeoLookup) (index i : Nat) : GeoLookup × Except GeoPanic Unit :=
  let byteIndex := (Bitmapping index i).1
  let bitIndex := (Bitmapping index i).2
  if byteIndex ≥ GeoBitfieldLen then (gl, .error .indexOutOfRange)
  else
    ({ bits := Function.update gl.bits byteIndex
        (gl.bits byteIndex ||| ((1 <<< bitIndex) % 256))
       offset := gl.offset },
      .ok ())

/-- The loop `for i := uint8(0); i < BIT_DEPTH; i++` of `AddAttestation`, with
`n` the number of iterations left and `i` the current depth. -/
def GeoLookup.AddAttestation.loop (index : Nat) : Nat → Nat → GeoLookup →
    GeoLookup × Except GeoPanic Unit
  | 0, _, gl => (gl, .ok ())
  | n + 1, i, gl =>
    match gl.setBit index i with
    | (gl1, .error e) => (gl1, .error e)
    | (gl1, .ok _) => GeoLookup.AddAttestation.loop index n (i + 1) gl1

/-- `func (gl *GeoLookup) AddAttestation(at *Attestation)`, with `il` for
`InterleaveUint32`. -/
def GeoLookup.AddAttestation (il : Nat → Nat → Nat) (gl : GeoLookup) (att : Attestation) :
    GeoLookup × Except GeoPanic Unit :=
  match NewGeoIndex il att.Source att.Target gl.offset with
  | .error e => (gl, .error e)
  | .ok index => GeoLookup.AddAttestation.loop index BIT_DEPTH 0 gl

/-- One of the four `if` statements of `match`: `cond` is the side test
(`flip != (q < index)` or `flip != (q > index)`), `q` the quadrant whose bit
is read, `rep` the value appended when the leaf level is reached, `toSurrounds`
tells which result list receives it, and `deeper` is the call
`gl.match(index, q, next, !flip)` made by the closure `recurse`. -/
def GeoLookup.matchBranch (gl : GeoLookup) (index depth next : Nat) (cond : Bool)
    (q rep : Nat) (toSurrounds : Bool)
    (deeper : Unit → Except GeoPanic (List Nat × List Nat))
    (acc : List Nat × List Nat) : Except GeoPanic (List Nat × List Nat) :=
  if cond then
    match gl.Hit q depth with
    | .error e => .error e
    | .ok false => .ok acc
    | .ok true =>
      if next == BIT_DEPTH && q != index then
        if toSurrounds then .ok (acc.1 ++ [rep], acc.2) else .ok (acc.1, acc.2 ++ [rep])
      else
        match deeper () with
        | .error e => .error e
        | .ok (s1, s2) => .ok (acc.1 ++ s1, acc.2 ++ s2)
  else .ok acc

/-- `func (gl *GeoLookup) match(index, current GeoIndex, depth uint8, flip
bool)`. The first argument bounds the nesting of calls: a call made with no
nesting left is `GeoPanic.nestingExceeded`. As in the source, the second `if`
tests the bit of `a` and appends `b`. -/
def GeoLookup.match_ (gl : GeoLookup) (index : Nat) :
    Nat → Nat → Nat → Bool → Except GeoPanic (List Nat × List Nat)
  | 0, _, _, _ => .error .nestingExceeded
  | fuel + 1, current, depth, flip =>
    let a := current - (current &&& (MAX_MASK >>> depth))
    let b := a ^^^ ((1 <<< ((BIT_DEPTH + 256 - depth) % 256)) % 2 ^ 64)
    let next := (depth + 1) % 256
    match gl.matchBranch index depth next (flip != decide (a < index)) a a true
        (fun _ => GeoLookup.match_ gl index fuel a next (!flip)) ([], []) with
    | .error e => .error e
    | .ok r1 =>
      match gl.matchBranch index depth next (flip != decide (a > index)) a b false
          (fun _ => GeoLookup.match_ gl index fuel a next (!flip)) r1 with
      | .error e => .error e
      | .ok r2 =>
        match gl.matchBranch index depth next (flip != decide (b < index)) b b true
            (fun _ => GeoLookup.match_ gl index fuel b next (!flip)) r2 with
        | .error e => .error e
        | .ok r3 =>
          gl.matchBranch index depth next (flip != decide (b > index)) b b false
            (fun _ => GeoLookup.match_ gl index fuel b next (!flip)) r3

/-- `func (gl *GeoLookup) MatchAttestation(at *Attestation)`, with `il` for
`InterleaveUint32` and `fuel` for the bound on the nesting of `match` calls. -/
def GeoLookup.MatchAttestation (il : Nat → Nat → Nat) (fuel : Nat) (gl : GeoLookup)
    (att : Attestation) : Except GeoPanic (List Nat × List Nat) :=
  match NewGeoIndex il att.Source att.Target gl.offset with
  | .error e => .error e
  | .ok index => gl.match_ index fuel index 0 true

/-- The flat bit address `2^d + (x >> (BIT_DEPTH - d))` of the quadrant of
geo index `x` at depth `d` in the heap layout of the bit array. -/
def pathAddr (x d : Nat) : Nat := 2 ^ d + x / 2 ^ (BIT_DEPTH - d)

/-- The bit of the lookup's array at the flat bit address `addr`: bit
`addr % 8` of byte `addr / 8`. -/
def GeoLookup.bitAt (gl : GeoLookup) (addr : Nat) : Bool :=
  (gl.bits (addr / 8)).testBit (addr % 8)

/-- Modelled from the spec: the other reading of "bits alternated" for the
absent `InterleaveUint32`, with the second value on the even bits. -/
def InterleaveUint32.swapped (x y : Nat) : Nat := InterleaveUint32 y x

end Eth2Surround

namespace Detection

/-! ## Bit-level lemmas on `MHBitfield` -/

theorem and_two_pow_ne_zero (x k : Nat) : ((x &&& 2 ^ k) != 0) = x.testBit k := by
  cases h : x.testBit k
  · have h0 : x &&& 2 ^ k = 0 := by
      apply Nat.eq_of_testBit_eq
      intro i
      by_cases hik : k = i
      · subst hik; simp [h]
      · simp [Nat.testBit_two_pow, hik]
    simp [h0]
  · have h1 : (x &&& 2 ^ k).testBit k = true := by
      simp [h, Nat.testBit_two_pow_self]
    have h2 : x &&& 2 ^ k ≠ 0 := by
      intro h0
      rw [h0] at h1
      simp at h1
    simp [h2]

theorem MHBitfield.Check_eq (b : MHBitfield) (i : Nat) (h : i < b.length * 8) :
    b.Check i = .ok (b.bitAt i) := by
  unfold MHBitfield.Check MHBitfield.bitAt
  have h7 : i &&& 7 = i % 8 := Nat.and_pow_two_sub_one_eq_mod i 3
  have h3 : i >>> 3 = i / 8 := Nat.shiftRight_eq_div_pow i 3
  rw [if_neg (by omega), h7, h3, Nat.one_shiftLeft, and_two_pow_ne_zero]

theorem MHBitfield.Check_error (b : MHBitfield) (i : Nat) (h : b.length * 8 ≤ i) :
    b.Check i = .error .outOfRangeLookup := by
  unfold MHBitfield.Check
  rw [if_pos h]

theorem MHBitfield.Set_error (b : MHBitfield) (i : Nat) (h : b.length * 8 ≤ i) :
    b.Set i = (b, .error .outOfRangeSet) := by
  unfold MHBitfield.Set
  rw [if_pos h]

theorem MHBitfield.Set_ok (b : MHBitfield) (i : Nat) (h : i < b.length * 8) :
    b.Set i = (b.set (i / 8) ((b.getD (i / 8) 0) ||| 2 ^ (i % 8)), .ok ()) := by
  unfold MHBitfield.Set
  have h7 : i &&& 7 = i % 8 := Nat.and_pow_two_sub_one_eq_mod i 3
  have h3 : i >>> 3 = i / 8 := Nat.shiftRight_eq_div_pow i 3
  rw [if_neg (by omega), h7, h3, Nat.one_shiftLeft]

theorem MHBitfield.Set_length (b : MHBitfield) (i : Nat) :
    (b.Set i).1.length = b.length := by
  unfold MHBitfield.Set
  split <;> simp

/-- Reading bit `j` after a successful `Set i`: bit `i` reads as set, every
other bit reads as before. -/
theorem MHBitfield.bitAt_Set (b : MHBitfield) (i j : Nat) (h : i < b.length * 8) :
    (b.Set i).1.bitAt j = (decide (j = i) || b.bitAt j) := by
  rw [MHBitfield.Set_ok b i h]
  unfold MHBitfield.bitAt
  have hi : i / 8 < b.length := by omega
  by_cases hb : j / 8 = i / 8
  · rw [hb]
    simp only [List.getD_eq_getElem?_getD, List.getElem?_set, hi, if_true, Option.getD_some,
      Nat.testBit_or, Nat.testBit_two_pow]
    by_cases hji : j = i
    · subst hji; simp
    · have : ¬ (i % 8 = j % 8) := by omega
      simp [hji, this]
  · have hji : ¬ (j = i) := by
      intro e; subst e; exact hb rfl
    have hne : ¬ (i / 8 = j / 8) := fun e => hb e.symm
    simp only [List.getD_eq_getElem?_getD, List.getElem?_set, hne, if_false, hji, decide_False,
      Bool.false_or]

/-! ## Coordinate transform -/

theorem CalcDelta_error (s t : Nat) (h : s ≥ t) :
    CalcDelta s t = .error .invalidSourceTarget := by
  unfold CalcDelta
  rw [if_pos h]

theorem CalcDelta_ok (s t : Nat) (h : s < t) (ht : t < 2 ^ 64) :
    CalcDelta s t = .ok (t - s) := by
  unfold CalcDelta
  rw [if_neg (by omega)]
  congr 1
  omega

/-- C3: `CalcDelta(source, target)` panics with "invalid source target pair!"
exactly when `source >= target`; for `source < target` it returns
`target - source`, which is at least 1. -/
theorem CalcDelta_contract (source target : Nat) (ht : target < 2 ^ 64) :
    ((∃ e, CalcDelta source target = .error e) ↔ source ≥ target) ∧
    (source ≥ target → CalcDelta source target = .error .invalidSourceTarget) ∧
    (source < target →
      CalcDelta source target = .ok (target - source) ∧ 1 ≤ target - source) := by
  refine ⟨⟨?_, ?_⟩, CalcDelta_error source target, ?_⟩
  · rintro ⟨e, he⟩
    by_contra hlt
    rw [CalcDelta_ok source target (by omega) ht] at he
    cases he
  · intro h
    exact ⟨_, CalcDelta_error source target h⟩
  · intro h
    exact ⟨CalcDelta_ok source target h ht, by omega⟩

theorem CalcDelta_contract_witness :
    ((∃ e, CalcDelta 110 100 = .error e) ↔ 110 ≥ 100) ∧
    CalcDelta 100 100 = .error .invalidSourceTarget ∧
    CalcDelta 100 110 = .ok 10 :=
  ⟨(CalcDelta_contract 110 100 (by norm_num)).1,
   (CalcDelta_contract 100 100 (by norm_num)).2.1 (by decide),
   ((CalcDelta_contract 100 110 (by norm_num)).2.2 (by decide)).1⟩

theorem Manhatten_eq (s t : Nat) (h : s + t < 2 ^ 64) : Manhatten s t = s + t := by
  unfold Manhatten
  omega

/-! ## Bands -/

theorem MHDetectionBlock.Add_invalid (db : MHDetectionBlock) (source target : Nat)
    (h : source ≥ target) :
    db.Add source target = (db, .error .invalidSourceTarget) := by
  unfold MHDetectionBlock.Add MHDetectionBlock.Applicable
  rw [CalcDelta_error source target h]

theorem MHDetectionBlock.Add_not_applicable (db : MHDetectionBlock) (source target : Nat)
    (hst : source < target) (ht : target < 2 ^ 64)
    (h : ¬ (db.MinDistance ≤ target - source ∧ target - source < db.MaxDistance)) :
    db.Add source target = (db, .error .invalidAttestation) := by
  unfold MHDetectionBlock.Add MHDetectionBlock.Applicable
  rw [CalcDelta_ok source target hst ht]
  have : (decide (target - source ≥ db.MinDistance) &&
      decide (target - source < db.MaxDistance)) = false := by
    rw [← Bool.not_eq_true]
    simpa using h
  simp only [this]

theorem MHDetectionBlock.Add_applicable (db : MHDetectionBlock) (source target : Nat)
    (hst : source < target) (ht : target < 2 ^ 64)
    (h : db.MinDistance ≤ target - source ∧ target - source < db.MaxDistance) :
    db.Add source target =
      ({ db with bits := (db.bits.Set (Manhatten source target)).1 },
        (db.bits.Set (Manhatten source target)).2) := by
  unfold MHDetectionBlock.Add MHDetectionBlock.Applicable
  rw [CalcDelta_ok source target hst ht]
  have : (decide (target - source ≥ db.MinDistance) &&
      decide (target - source < db.MaxDistance)) = true := by
    simpa using h
  simp only [this]

/-- C8: `MHDetectionBlock.Add` panics and leaves the band as it was when
`source >= target`, when `target - source` is outside `[MinDistance,
MaxDistance)`, or when the Manhattan index `Manhatten(source, target)` (the
`uint64` sum `source + target`) is outside the capacity `8 * len(bits)`;
otherwise it returns, the bit at the Manhattan index reads as set, and every
other bit, the length of the bit array and both distances are unchanged. -/
theorem MHDetectionBlock.Add_contract (db : MHDetectionBlock) (source target : Nat)
    (ht : target < 2 ^ 64) :
    ((source ≥ target ∨
        ¬ (db.MinDistance ≤ target - source ∧ target - source < db.MaxDistance) ∨
        db.bits.length * 8 ≤ Manhatten source target) →
      ∃ e, db.Add source target = (db, .error e)) ∧
    (¬ (source ≥ target ∨
        ¬ (db.MinDistance ≤ target - source ∧ target - source < db.MaxDistance) ∨
        db.bits.length * 8 ≤ Manhatten source target) →
      ∃ db1, db.Add source target = (db1, .ok ()) ∧
        db1.MinDistance = db.MinDistance ∧ db1.MaxDistance = db.MaxDistance ∧
        db1.bits.length = db.bits.length ∧
        db1.bits.Check (Manhatten source target) = .ok true ∧
        ∀ j, j ≠ Manhatten source target → db1.bits.Check j = db.bits.Check j) ∧
    (source + target < 2 ^ 64 → Manhatten source target = source + target) := by
  refine ⟨?_, ?_, Manhatten_eq source target⟩
  · intro h
    by_cases h1 : source ≥ target
    · exact ⟨_, db.Add_invalid source target h1⟩
    · have hst : source < target := by omega
      by_cases h2 : db.MinDistance ≤ target - source ∧ target - source < db.MaxDistance
      · have h3 : db.bits.length * 8 ≤ Manhatten source target := by
          rcases h with h | h | h
          · exact absurd h h1
          · exact absurd h2 h
          · exact h
        refine ⟨.outOfRangeSet, ?_⟩
        rw [db.Add_applicable source target hst ht h2, MHBitfield.Set_error _ _ h3]
      · exact ⟨_, db.Add_not_applicable source target hst ht h2⟩
  · intro h
    have hst : source < target := by
      by_contra hc
      exact h (Or.inl (by omega))
    have h2 : db.MinDistance ≤ target - source ∧ target - source < db.MaxDistance := by
      by_contra hc
      exact h (Or.inr (Or.inl hc))
    have h3 : Manhatten source target < db.bits.length * 8 := by
      by_contra hc
      exact h (Or.inr (Or.inr (by omega)))
    have hlen : (db.bits.Set (Manhatten source target)).1.length = db.bits.length :=
      MHBitfield.Set_length _ _
    refine ⟨{ db with bits := (db.bits.Set (Manhatten source target)).1 }, ?_, rfl, rfl,
      hlen, ?_, ?_⟩
    · rw [db.Add_applicable source target hst ht h2, MHBitfield.Set_ok _ _ h3]
    · show (db.bits.Set (Manhatten source target)).1.Check (Manhatten source target) = _
      rw [MHBitfield.Check_eq _ _ (by rw [hlen]; exact h3), MHBitfield.bitAt_Set _ _ _ h3]
      simp
    · intro j hj
      show (db.bits.Set (Manhatten source target)).1.Check j = _
      by_cases hjr : j < db.bits.length * 8
      · rw [MHBitfield.Check_eq _ _ (by rw [hlen]; exact hjr), MHBitfield.Check_eq _ _ hjr,
          MHBitfield.bitAt_Set _ _ _ h3]
        simp [hj]
      · rw [MHBitfield.Check_error _ _ (by rw [hlen]; omega),
          MHBitfield.Check_error _ _ (by omega)]

theorem MHDetectionBlock.Add_contract_witness :
    (∃ e, MHDetectionBlock.Add ⟨0, 8, [0, 0]⟩ 5 5 = (⟨0, 8, [0, 0]⟩, .error e)) ∧
    (∃ e, MHDetectionBlock.Add ⟨0, 8, [0, 0]⟩ 1 9 = (⟨0, 8, [0, 0]⟩, .error e)) ∧
    (∃ e, MHDetectionBlock.Add ⟨0, 8, [0, 0]⟩ 7 10 = (⟨0, 8, [0, 0]⟩, .error e)) ∧
    (∃ db1, MHDetectionBlock.Add ⟨0, 8, [0, 0]⟩ 3 6 = (db1, .ok ()) ∧
        db1.MinDistance = 0 ∧ db1.MaxDistance = 8 ∧ db1.bits.length = 2 ∧
        db1.bits.Check (Manhatten 3 6) = .ok true ∧
        ∀ j, j ≠ Manhatten 3 6 → db1.bits.Check j = MHBitfield.Check [0, 0] j) ∧
    Manhatten 3 6 = 9 :=
  ⟨(MHDetectionBlock.Add_contract ⟨0, 8, [0, 0]⟩ 5 5 (by norm_num)).1 (by decide),
   (MHDetectionBlock.Add_contract ⟨0, 8, [0, 0]⟩ 1 9 (by norm_num)).1 (by decide),
   (MHDetectionBlock.Add_contract ⟨0, 8, [0, 0]⟩ 7 10 (by norm_num)).1 (by decide),
   (MHDetectionBlock.Add_contract ⟨0, 8, [0, 0]⟩ 3 6 (by norm_num)).2.1 (by decide),
   (MHDetectionBlock.Add_contract ⟨0, 8, [0, 0]⟩ 3 6 (by norm_num)).2.2 (by norm_num)⟩

theorem NewMHBitfield_length (maxTarget : Nat) (h : maxTarget * 2 + 7 < 2 ^ 64) :
    (NewMHBitfield maxTarget).length = (maxTarget * 2 + 7) / 8 := by
  unfold NewMHBitfield
  rw [List.length_replicate]
  omega

/-- C10, as the code has it: when `maxTarget * 2 + 7` does not wrap, that is
`maxTarget <= 2^63 - 4`, every attestation with `source < target <= maxTarget`
has its Manhattan index `source + target` below `8 * len(NewMHBitfield(maxTarget))`,
so `Check` and `Set` at that index do not raise the out-of-range panic. -/
theorem NewMHBitfield_capacity (maxTarget source target : Nat)
    (hm : maxTarget ≤ 2 ^ 63 - 4) (hst : source < target) (ht : target ≤ maxTarget) :
    Manhatten source target = source + target ∧
    source + target < 8 * (NewMHBitfield maxTarget).length ∧
    (∃ v, (NewMHBitfield maxTarget).Check (Manhatten source target) = .ok v) ∧
    ((NewMHBitfield maxTarget).Set (Manhatten source target)).2 = .ok () := by
  have hlen := NewMHBitfield_length maxTarget (by omega)
  have hM : Manhatten source target = source + target := Manhatten_eq _ _ (by omega)
  have hlt : source + target < (NewMHBitfield maxTarget).length * 8 := by
    rw [hlen]; omega
  refine ⟨hM, by omega, ⟨(NewMHBitfield maxTarget).bitAt (source + target), ?_⟩, ?_⟩
  · rw [hM]
    exact MHBitfield.Check_eq _ _ hlt
  · rw [hM, MHBitfield.Set_ok _ _ hlt]

theorem NewMHBitfield_capacity_witness :
    Manhatten 100 200 = 100 + 200 ∧
    100 + 200 < 8 * (NewMHBitfield 1000).length ∧
    (∃ v, (NewMHBitfield 1000).Check (Manhatten 100 200) = .ok v) ∧
    ((NewMHBitfield 1000).Set (Manhatten 100 200)).2 = .ok () :=
  NewMHBitfield_capacity 1000 100 200 (by norm_num) (by norm_num) (by norm_num)

/-- C10, as stated, fails: `maxTarget = 2^63 - 1` is below `2^63`, but
`maxTarget*2 + 7` wraps to 5, so `NewMHBitfield` makes an empty bit array and
`Set` at the Manhattan index of the attestation `(0, 1)` raises the
out-of-range panic. -/
theorem NewMHBitfield_capacity_counterexample :
    2 ^ 63 - 1 < 2 ^ 63 ∧ 0 < 1 ∧ 1 ≤ 2 ^ 63 - 1 ∧
    (NewMHBitfield (2 ^ 63 - 1)).length = 0 ∧
    ¬ (Manhatten 0 1 < 8 * (NewMHBitfield (2 ^ 63 - 1)).length) ∧
    (NewMHBitfield (2 ^ 63 - 1)).Set (Manhatten 0 1) = ([], .error .outOfRangeSet) ∧
    (NewMHBitfield (2 ^ 63 - 1)).Check (Manhatten 0 1) = .error .outOfRangeLookup := by
  have hl : NewMHBitfield (2 ^ 63 - 1) = [] := by
    unfold NewMHBitfield
    norm_num
  rw [hl]
  refine ⟨by norm_num, by norm_num, by norm_num, rfl, ?_, ?_, ?_⟩
  · simp [Manhatten]
  · rfl
  · rfl

/-! ## The tiered gate filter -/

theorem FuzzyCheckAndAdd.loop_double (source target d : Nat) (focus : Focus) :
    ∀ (blocks : List MHDetectionBlock) (out : Focus) (blocks1 : List MHDetectionBlock)
      (res : Focus),
      FuzzyCheckAndAdd.loop source target d focus blocks out = (blocks1, .ok res) →
      res.double = out.double := by
  intro blocks
  induction blocks with
  | nil =>
    intro out blocks1 res h
    simp only [FuzzyCheckAndAdd.loop, Prod.mk.injEq, Except.ok.injEq] at h
    rw [← h.2]
  | cons b rest ih =>
    intro out blocks1 res h
    simp only [FuzzyCheckAndAdd.loop] at h
    split at h
    · simp at h
    · simp only [Prod.mk.injEq, Except.ok.injEq] at h
      rw [← h.2]
    · simp only [Prod.mk.injEq, Except.ok.injEq] at h
      rw [← h.2]
    · simp only [Prod.mk.injEq] at h
      exact ih out _ res (Prod.ext rfl h.2)

/-- C7: whenever `FuzzyCheckAndAdd` returns, the input focus is non-nil and
the `double` set of the output focus is the `double` set of the input focus,
whatever the bands hold. -/
theorem MHDetectionBlockStack.FuzzyCheckAndAdd_double (bs bs1 : MHDetectionBlockStack)
    (source target : Nat) (focus : Option Focus) (out : Focus)
    (h : bs.FuzzyCheckAndAdd source target focus = (bs1, .ok out)) :
    ∃ f, focus = some f ∧ out.double = f.double := by
  unfold MHDetectionBlockStack.FuzzyCheckAndAdd at h
  split at h
  · simp at h
  · split at h
    · simp at h
    · rename_i f
      refine ⟨f, rfl, ?_⟩
      simp only [Prod.mk.injEq] at h
      exact FuzzyCheckAndAdd.loop_double source target _ f bs.blocks
        ⟨[], [], f.double⟩ _ out (Prod.ext rfl h.2)

theorem MHDetectionBlockStack.FuzzyCheckAndAdd_double_witness :
    ∃ f, some (Focus.mk [1, 2] [2, 3] [3, 1, 3]) = some f ∧
      (Focus.mk [] [] [3, 1, 3]).double = f.double :=
  MHDetectionBlockStack.FuzzyCheckAndAdd_double
    { blocks := [⟨0, 4, [0, 0]⟩, ⟨4, 8, [0, 0]⟩] }
    { blocks := [⟨0, 4, [0, 0]⟩, ⟨4, 8, [128, 0]⟩] }
    1 6 (some (Focus.mk [1, 2] [2, 3] [3, 1, 3])) (Focus.mk [] [] [3, 1, 3]) rfl

/-! ## The grouped dispatch layer -/

theorem Focus.IsEmpty_iff (f : Option Focus) :
    Focus.IsEmpty f = true ↔
      f = none ∨ ∃ g, f = some g ∧ g.surrounding = [] ∧ g.surroundedBy = [] ∧ g.double = [] := by
  cases f with
  | none => simp [Focus.IsEmpty]
  | some g => simp [Focus.IsEmpty, List.length_eq_zero, and_assoc]

/-- C5: if the focus returned by the gate filter is nil or has its three sets
empty, `CheckAndAdd` returns no slashes, and the layer it leaves behind has
the gate in the state the gate call produced and every group store in the
state it had before the call. -/
theorem GroupedDetectionLayer.CheckAndAdd_empty_focus {γ δ : Type} [FuzzyDetector γ]
    [Detector δ] (gd : GroupedDetectionLayer γ δ) (att : AttestationData)
    (focus focus1 : Option Focus) (gate1 : γ)
    (hg : FuzzyDetector.FuzzyCheckAndAdd gd.GateKeeper att.source att.target focus =
      (gate1, .ok focus1))
    (he : focus1 = none ∨
      ∃ g, focus1 = some g ∧ g.surrounding = [] ∧ g.surroundedBy = [] ∧ g.double = []) :
    gd.CheckAndAdd att focus = ({ gd with GateKeeper := gate1 }, .ok []) ∧
    (gd.CheckAndAdd att focus).1.Groups = gd.Groups := by
  have hempty : Focus.IsEmpty focus1 = true := (Focus.IsEmpty_iff focus1).2 he
  have hres : gd.CheckAndAdd att focus = ({ gd with GateKeeper := gate1 }, .ok []) := by
    unfold GroupedDetectionLayer.CheckAndAdd
    rw [hg]
    simp only [hempty, if_true]
  exact ⟨hres, by rw [hres]⟩

theorem GroupedDetectionLayer.CheckAndAdd_empty_focus_witness :
    (GroupedDetectionLayer.CheckAndAdd
        (GroupedDetectionLayer.mk 3 PassGate.mk
          [RecordingStore.mk [], RecordingStore.mk [], RecordingStore.mk [], RecordingStore.mk []])
        ⟨100, 110, []⟩ (some (NewFocus [])) =
      (GroupedDetectionLayer.mk 3 PassGate.mk
          [RecordingStore.mk [], RecordingStore.mk [], RecordingStore.mk [], RecordingStore.mk []],
        .ok [])) ∧
    (GroupedDetectionLayer.CheckAndAdd
        (GroupedDetectionLayer.mk 3 PassGate.mk
          [RecordingStore.mk [], RecordingStore.mk [], RecordingStore.mk [], RecordingStore.mk []])
        ⟨100, 110, []⟩ (some (NewFocus []))).1.Groups =
      [RecordingStore.mk [], RecordingStore.mk [], RecordingStore.mk [], RecordingStore.mk []] :=
  GroupedDetectionLayer.CheckAndAdd_empty_focus
    (GroupedDetectionLayer.mk 3 PassGate.mk
      [RecordingStore.mk [], RecordingStore.mk [], RecordingStore.mk [], RecordingStore.mk []])
    ⟨100, 110, []⟩ (some (NewFocus [])) (some (NewFocus [])) PassGate.mk rfl
    (Or.inr ⟨NewFocus [], rfl, rfl, rfl, rfl⟩)

theorem NewGroupedCheck.fill_spec {φ δ : Type} (next : φ → φ × δ) :
    ∀ (n : Nat) (st : φ),
      (NewGroupedCheck.fill next n st).2.length = n ∧
      (NewGroupedCheck.fill next n st).1 = (fun s => (next s).1)^[n] st ∧
      ∀ i, i < n →
        (NewGroupedCheck.fill next n st).2[i]? =
          some (next ((fun s => (next s).1)^[i] st)).2 := by
  intro n
  induction n with
  | zero =>
    intro st
    simp [NewGroupedCheck.fill]
  | succ n ih =>
    intro st
    have hstep : NewGroupedCheck.fill next (n + 1) st =
        ((NewGroupedCheck.fill next n (next st).1).1,
          (next st).2 :: (NewGroupedCheck.fill next n (next st).1).2) := by
      simp only [NewGroupedCheck.fill]
    obtain ⟨h1, h2, h3⟩ := ih (next st).1
    rw [hstep]
    refine ⟨by simp [h1], ?_, ?_⟩
    · simp only [Function.iterate_succ_apply]
      exact h2
    · intro i hi
      cases i with
      | zero => simp
      | succ j =>
        simp only [List.getElem?_cons_succ, Function.iterate_succ_apply]
        exact h3 j (by omega)

theorem ceil_div_count (total size : Nat) (hs : 0 < size) :
    (total + size - 1) / size = ⌈(total : ℚ) / (size : ℚ)⌉₊ := by
  have hsq : (0 : ℚ) < (size : ℚ) := by exact_mod_cast hs
  apply le_antisymm
  · rcases Nat.eq_zero_or_pos ((total + size - 1) / size) with h0 | hpos
    · rw [h0]
      exact Nat.zero_le _
    · obtain ⟨k, hk⟩ : ∃ k, (total + size - 1) / size = k + 1 := ⟨_, (Nat.succ_pred_eq_of_pos hpos).symm⟩
      rw [hk]
      apply Nat.succ_le_of_lt
      rw [Nat.lt_ceil, lt_div_iff₀ hsq]
      have hle := Nat.div_mul_le_self (total + size - 1) size
      rw [hk] at hle
      have hlt : k * size < total := by
        have he : (k + 1) * size = k * size + size := by ring
        omega
      exact_mod_cast hlt
  · rw [Nat.ceil_le, div_le_iff₀ hsq]
    have h : total ≤ (total + size - 1) / size * size := by
      have := Nat.div_add_mod (total + size - 1) size
      have hm := Nat.mod_lt (total + size - 1) hs
      have hc : size * ((total + size - 1) / size) = (total + size - 1) / size * size :=
        Nat.mul_comm _ _
      omega
    exact_mod_cast h

theorem NewGroupedCheck_zero {γ φ δ : Type} (total : Nat) (gate : γ)
    (next : φ → φ × δ) (st : φ) :
    (NewGroupedCheck 0 total gate next st :
      φ × Except Panic (GroupedDetectionLayer γ δ)) = (st, .error .groupSizeZero) := by
  unfold NewGroupedCheck
  rw [if_pos (beq_self_eq_true 0)]

theorem NewGroupedCheck_returns {γ φ δ : Type} (size total : Nat) (gate : γ)
    (next : φ → φ × δ) (st : φ) (hs : 0 < size) :
    ∃ st1 layer, (NewGroupedCheck size total gate next st :
      φ × Except Panic (GroupedDetectionLayer γ δ)) = (st1, .ok layer) := by
  have hne : ¬ ((size == 0) = true) := by
    rw [beq_iff_eq]
    omega
  unfold NewGroupedCheck
  rw [if_neg hne]
  exact ⟨_, _, rfl⟩

theorem NewGroupedCheck_pos {γ φ δ : Type} (size total : Nat) (gate : γ)
    (next : φ → φ × δ) (st : φ) (hs : 0 < size) (hno : total + size - 1 < 2 ^ 64) :
    ∃ c, c = (total + size - 1) / size ∧
      (NewGroupedCheck size total gate next st :
        φ × Except Panic (GroupedDetectionLayer γ δ)) =
      ((NewGroupedCheck.fill next c st).1,
        .ok { GroupSize := size, GateKeeper := gate,
              Groups := (NewGroupedCheck.fill next c st).2 }) := by
  have hcount : (((total + size) % 2 ^ 64 + 2 ^ 64 - 1) % 2 ^ 64) =
      total + size - 1 := by
    omega
  have hne : ¬ ((size == 0) = true) := by
    rw [beq_iff_eq]
    omega
  refine ⟨(total + size - 1) / size, rfl, ?_⟩
  unfold NewGroupedCheck
  rw [if_neg hne, hcount]

/-- C6: `NewGroupedCheck(size, total, gate, factory)` panics with "group size
cannot be 0" exactly when `size = 0`, before any call of the factory; for
`size > 0` and `total + size - 1 < 2^64` it returns a layer with
`GroupSize = size`, the given gate, and exactly `ceil(total / size)` groups,
the group at position `i` being the result of the `(i+1)`-th call of the
factory, which is called once per group and no more. -/
theorem NewGroupedCheck_contract {γ φ δ : Type} (size total : Nat) (gate : γ)
    (next : φ → φ × δ) (st : φ) :
    ((∃ st1 e, (NewGroupedCheck size total gate next st :
        φ × Except Panic (GroupedDetectionLayer γ δ)) = (st1, .error e)) ↔ size = 0) ∧
    (size = 0 → (NewGroupedCheck size total gate next st :
        φ × Except Panic (GroupedDetectionLayer γ δ)) = (st, .error .groupSizeZero)) ∧
    (0 < size → total + size - 1 < 2 ^ 64 →
      ∃ st1 layer, (NewGroupedCheck size total gate next st :
          φ × Except Panic (GroupedDetectionLayer γ δ)) = (st1, .ok layer) ∧
        layer.GroupSize = size ∧ layer.GateKeeper = gate ∧
        layer.Groups.length = ⌈(total : ℚ) / (size : ℚ)⌉₊ ∧
        st1 = (fun s => (next s).1)^[layer.Groups.length] st ∧
        ∀ i, i < layer.Groups.length →
          layer.Groups[i]? = some (next ((fun s => (next s).1)^[i] st)).2) := by
  refine ⟨⟨?_, ?_⟩, ?_, ?_⟩
  · rintro ⟨st1, e, he⟩
    by_contra hne
    obtain ⟨st2, layer, hok⟩ :=
      NewGroupedCheck_returns size total gate next st (Nat.pos_of_ne_zero hne)
    rw [hok] at he
    cases he
  · intro h
    subst h
    exact ⟨st, _, NewGroupedCheck_zero total gate next st⟩
  · intro h
    subst h
    exact NewGroupedCheck_zero total gate next st
  · intro hs hno
    obtain ⟨c, hc, hres⟩ := NewGroupedCheck_pos size total gate next st hs hno
    obtain ⟨h1, h2, h3⟩ := NewGroupedCheck.fill_spec next c st
    have hceil : c = ⌈(total : ℚ) / (size : ℚ)⌉₊ := by
      rw [hc]
      exact ceil_div_count total size hs
    refine ⟨(NewGroupedCheck.fill next c st).1,
      { GroupSize := size, GateKeeper := gate, Groups := (NewGroupedCheck.fill next c st).2 },
      hres, rfl, rfl, ?_, ?_, ?_⟩
    · exact h1.trans hceil
    · have e : (NewGroupedCheck.fill next c st).1 =
          (fun s => (next s).1)^[(NewGroupedCheck.fill next c st).2.length] st := by
        rw [h1]
        exact h2
      exact e
    · intro i hi
      exact h3 i (h1 ▸ hi)

theorem NewGroupedCheck_contract_witness :
    (∃ st1 layer, (NewGroupedCheck 3 10 PassGate.mk countingFactory 0 :
          Nat × Except Panic (GroupedDetectionLayer PassGate RecordingStore)) =
          (st1, .ok layer) ∧
        layer.GroupSize = 3 ∧ layer.GateKeeper = PassGate.mk ∧
        layer.Groups.length = ⌈((10 : Nat) : ℚ) / ((3 : Nat) : ℚ)⌉₊ ∧
        st1 = (fun s => (countingFactory s).1)^[layer.Groups.length] 0 ∧
        ∀ i, i < layer.Groups.length →
          layer.Groups[i]? =
            some (countingFactory ((fun s => (countingFactory s).1)^[i] 0)).2) ∧
    (NewGroupedCheck 3 10 PassGate.mk countingFactory 0 :
        Nat × Except Panic (GroupedDetectionLayer PassGate RecordingStore)) =
      (4, .ok ⟨3, PassGate.mk,
        [RecordingStore.mk [], RecordingStore.mk [], RecordingStore.mk [],
          RecordingStore.mk []]⟩) ∧
    (NewGroupedCheck 0 10 PassGate.mk countingFactory 0 :
        Nat × Except Panic (GroupedDetectionLayer PassGate RecordingStore)) =
      (0, .error .groupSizeZero) :=
  ⟨(NewGroupedCheck_contract 3 10 PassGate.mk countingFactory 0).2.2
      (by norm_num) (by norm_num),
   rfl,
   (NewGroupedCheck_contract 0 10 PassGate.mk countingFactory 0).2.1 rfl⟩

/-! ## The code at the inputs where it departs from its specification -/

set_option maxRecDepth 100000 in
/-- C1: the gate filter loses true surround relations. With one band
`[0, 1000)` sized for `maxTarget = 1000`: after `A = (100, 110)` is added,
evaluating `B = (102, 108)` returns an empty `surroundedBy`; after `B` is
added, evaluating `A` returns an empty `surrounding`; after `(100, 200)` is
added, evaluating `(90, 210)` returns both sets empty. In each run the bit of
the first attestation is set in the band when the second call starts, and the
focus passed in holds validator 3 in all three sets. -/
theorem FuzzyCheckAndAdd_drops_surround :
    (((MHDetectionBlockStack.mk [⟨0, 1000, NewMHBitfield 1000⟩]).FuzzyCheckAndAdd 100 110
          (some (NewFocus [3]))).1.FuzzyCheckAndAdd 102 108 (some (NewFocus [3]))).2 =
        .ok { surrounding := [], surroundedBy := [], double := [3] } ∧
    (((MHDetectionBlockStack.mk [⟨0, 1000, NewMHBitfield 1000⟩]).FuzzyCheckAndAdd 102 108
          (some (NewFocus [3]))).1.FuzzyCheckAndAdd 100 110 (some (NewFocus [3]))).2 =
        .ok { surrounding := [], surroundedBy := [], double := [3] } ∧
    (((MHDetectionBlockStack.mk [⟨0, 1000, NewMHBitfield 1000⟩]).FuzzyCheckAndAdd 100 200
          (some (NewFocus [3]))).1.FuzzyCheckAndAdd 90 210 (some (NewFocus [3]))).2 =
        .ok { surrounding := [], surroundedBy := [], double := [3] } ∧
    (((MHDetectionBlockStack.mk [⟨0, 1000, NewMHBitfield 1000⟩]).FuzzyCheckAndAdd 100 110
          (some (NewFocus [3]))).1.blocks.map
        (fun b => b.bits.Check (Manhatten 100 110))) = [.ok true] ∧
    (((MHDetectionBlockStack.mk [⟨0, 1000, NewMHBitfield 1000⟩]).FuzzyCheckAndAdd 102 108
          (some (NewFocus [3]))).1.blocks.map
        (fun b => b.bits.Check (Manhatten 102 108))) = [.ok true] ∧
    (((MHDetectionBlockStack.mk [⟨0, 1000, NewMHBitfield 1000⟩]).FuzzyCheckAndAdd 100 200
          (some (NewFocus [3]))).1.blocks.map
        (fun b => b.bits.Check (Manhatten 100 200))) = [.ok true] := by
  refine ⟨?_, ?_, ?_, ?_, ?_, ?_⟩ <;> rfl

/-- C2: a group whose range holds no focused validator stalls the range of
every later group. With group size 3, four recording stores, a gate that
returns its input and a focus whose only validator is 5, the restriction of
the focus to the range `[3, 6)` of group 1 is non-empty, yet `CheckAndAdd`
returns no slash and no store has recorded a call. -/
theorem GroupedDetectionLayer.CheckAndAdd_stalls :
    (NewFocus [5]).QueryRange 3 6 = NewFocus [5] ∧
    Focus.IsEmpty (some ((NewFocus [5]).QueryRange 3 6)) = false ∧
    GroupedDetectionLayer.CheckAndAdd
        (GroupedDetectionLayer.mk 3 PassGate.mk
          [RecordingStore.mk [], RecordingStore.mk [], RecordingStore.mk [], RecordingStore.mk []])
        ⟨100, 110, []⟩ (some (NewFocus [5])) =
      (GroupedDetectionLayer.mk 3 PassGate.mk
          [RecordingStore.mk [], RecordingStore.mk [], RecordingStore.mk [], RecordingStore.mk []],
        .ok []) := by
  refine ⟨?_, ?_, ?_⟩ <;> rfl

/-- C4: a panic after a write. On one band `[0, 8)` with a two-byte all-zero
bit array, `FuzzyCheckAndAdd(0, 5, focus)` first sets bit 5 through `Add`,
then `ManhattenSurroundeeRange` wraps `s -= 1` at `s = 0` and `CalcDelta`
panics with "invalid source target pair!": the call fails and the band's bit
array has changed from `[0, 0]` to `[32, 0]`. -/
theorem FuzzyCheckAndAdd_panics_after_write :
    NewMHBitfield 8 = [0, 0] ∧
    (MHDetectionBlockStack.mk [⟨0, 8, NewMHBitfield 8⟩]).FuzzyCheckAndAdd 0 5
        (some (NewFocus [3])) =
      (MHDetectionBlockStack.mk [⟨0, 8, [32, 0]⟩], .error .invalidSourceTarget) ∧
    MHBitfield.Check [0, 0] 5 = .ok false ∧
    MHBitfield.Check [32, 0] 5 = .ok true := by
  refine ⟨?_, ?_, ?_, ?_⟩ <;> rfl

/-- C9: `NewMHDetectionBlockStack` builds the bands and drops them. For the
gradient `[10, 20]` and `maxTarget = 8` the local `bs` ends as the two bands
`[0, 10)` and `[10, 30)`, each with its own all-zero two-byte bit array, and
the function's value is the empty tuple: no stack reaches the caller. -/
theorem NewMHDetectionBlockStack_drops_stack :
    NewMHDetectionBlockStack.bs [10, 20] 8 =
      MHDetectionBlockStack.mk [⟨0, 10, [0, 0]⟩, ⟨10, 30, [0, 0]⟩] ∧
    NewMHDetectionBlockStack [10, 20] 8 = () := by
  refine ⟨?_, ?_⟩ <;> rfl

/-! ## Range scans and range filters -/

theorem MHDetectionBlock.CheckRange.loop_spec (bits : MHBitfield) :
    ∀ (n i : Nat), i + n ≤ bits.length * 8 →
      ∃ r, MHDetectionBlock.CheckRange.loop bits i n = .ok r ∧
        (r = true ↔ ∃ j, i ≤ j ∧ j < i + n ∧ bits.bitAt j = true) := by
  intro n
  induction n with
  | zero =>
    intro i _
    refine ⟨false, rfl, ?_⟩
    constructor
    · intro hf
      cases hf
    · rintro ⟨j, h1, h2, _⟩
      omega
  | succ n ih =>
    intro i h
    have hi : i < bits.length * 8 := by omega
    cases hb : bits.bitAt i
    · obtain ⟨r, hr, hiff⟩ := ih (i + 1) (by omega)
      refine ⟨r, ?_, ?_⟩
      · simp only [MHDetectionBlock.CheckRange.loop, MHBitfield.Check_eq bits i hi, hb]
        exact hr
      · rw [hiff]
        constructor
        · rintro ⟨j, h1, h2, h3⟩
          exact ⟨j, by omega, by omega, h3⟩
        · rintro ⟨j, h1, h2, h3⟩
          have hne : j ≠ i := by
            intro e
            rw [e, hb] at h3
            cases h3
          exact ⟨j, by omega, by omega, h3⟩
    · refine ⟨true, ?_, ?_⟩
      · simp only [MHDetectionBlock.CheckRange.loop, MHBitfield.Check_eq bits i hi, hb]
      · constructor
        · intro _
          exact ⟨i, Nat.le_refl i, by omega, hb⟩
        · intro _
          rfl

/-- C11: for `end <= 8 * len(bits)`, `CheckRange(start, end)` returns, and it
returns true exactly when some index `i` with `start <= i < end` has its bit
set (`Check(i)` is true); in particular it returns false when `start >= end`. -/
theorem MHDetectionBlock.CheckRange_iff (db : MHDetectionBlock) (start stop : Nat)
    (h : stop ≤ 8 * db.bits.length) :
    (∃ r, db.CheckRange start stop = .ok r ∧
      (r = true ↔ ∃ i, start ≤ i ∧ i < stop ∧ db.bits.Check i = .ok true)) ∧
    (start ≥ stop → db.CheckRange start stop = .ok false) := by
  constructor
  · by_cases hlt : start < stop
    · obtain ⟨r, hr, hiff⟩ :=
        MHDetectionBlock.CheckRange.loop_spec db.bits (stop - start) start (by omega)
      refine ⟨r, hr, ?_⟩
      rw [hiff]
      constructor
      · rintro ⟨j, h1, h2, h3⟩
        refine ⟨j, h1, by omega, ?_⟩
        rw [MHBitfield.Check_eq db.bits j (by omega), h3]
      · rintro ⟨j, h1, h2, h3⟩
        refine ⟨j, h1, by omega, ?_⟩
        rw [MHBitfield.Check_eq db.bits j (by omega)] at h3
        exact Except.ok.inj h3
    · refine ⟨false, ?_, ?_⟩
      · unfold MHDetectionBlock.CheckRange
        rw [show stop - start = 0 by omega]
        rfl
      · constructor
        · intro hf
          cases hf
        · rintro ⟨j, h1, h2, _⟩
          omega
  · intro hge
    unfold MHDetectionBlock.CheckRange
    rw [show stop - start = 0 by omega]
    rfl

theorem MHDetectionBlock.CheckRange_iff_witness :
    (∃ r, MHDetectionBlock.CheckRange ⟨0, 8, [0, 2]⟩ 3 12 = .ok r ∧
      (r = true ↔ ∃ i, 3 ≤ i ∧ i < 12 ∧ MHBitfield.Check [0, 2] i = .ok true)) ∧
    (12 ≥ 3 → MHDetectionBlock.CheckRange ⟨0, 8, [0, 2]⟩ 12 3 = .ok false) ∧
    MHDetectionBlock.CheckRange ⟨0, 8, [0, 2]⟩ 3 12 = .ok true ∧
    MHDetectionBlock.CheckRange ⟨0, 8, [0, 2]⟩ 3 9 = .ok false :=
  ⟨(MHDetectionBlock.CheckRange_iff ⟨0, 8, [0, 2]⟩ 3 12 (by decide)).1,
   (MHDetectionBlock.CheckRange_iff ⟨0, 8, [0, 2]⟩ 12 3 (by decide)).2,
   rfl, rfl⟩

theorem ValidatorIndexSet.QueryRange_foldl (start stop : Nat) :
    ∀ (vis acc : List Nat),
      vis.foldl (fun out vi => if vi ≥ start ∧ vi < stop then out ++ [vi] else out) acc =
        acc ++ vis.filter (fun v => decide (start ≤ v ∧ v < stop)) := by
  intro vis
  induction vis with
  | nil => intro acc; simp
  | cons v rest ih =>
    intro acc
    rw [List.foldl_cons, ih]
    by_cases hv : v ≥ start ∧ v < stop
    · have hv2 : start ≤ v ∧ v < stop := hv
      rw [if_pos hv]
      simp [List.filter_cons, hv2]
    · have hv2 : ¬ (start ≤ v ∧ v < stop) := hv
      rw [if_neg hv]
      simp [List.filter_cons, hv2]

/-- C17: `vis.QueryRange(start, end)` is the sub-sequence of `vis` of the
indices `v` with `start <= v < end`, order and multiplicities kept (it is
`List.filter` by that test), and `Focus.QueryRange` does this to each of
`surrounding`, `surroundedBy` and `double` separately, so each output set is a
sub-sequence of the input set of the same name. -/
theorem ValidatorIndexSet.QueryRange_filter (vis : ValidatorIndexSet) (f : Focus)
    (start stop : Nat) :
    ValidatorIndexSet.QueryRange vis start stop =
      vis.filter (fun v => decide (start ≤ v ∧ v < stop)) ∧
    (∀ v, (ValidatorIndexSet.QueryRange vis start stop).count v =
      if start ≤ v ∧ v < stop then vis.count v else 0) ∧
    (f.QueryRange start stop).surrounding =
      f.surrounding.filter (fun v => decide (start ≤ v ∧ v < stop)) ∧
    (f.QueryRange start stop).surroundedBy =
      f.surroundedBy.filter (fun v => decide (start ≤ v ∧ v < stop)) ∧
    (f.QueryRange start stop).double =
      f.double.filter (fun v => decide (start ≤ v ∧ v < stop)) ∧
    List.Sublist (f.QueryRange start stop).surrounding f.surrounding ∧
    List.Sublist (f.QueryRange start stop).surroundedBy f.surroundedBy ∧
    List.Sublist (f.QueryRange start stop).double f.double := by
  have key : ∀ l : List Nat, ValidatorIndexSet.QueryRange l start stop =
      l.filter (fun v => decide (start ≤ v ∧ v < stop)) := by
    intro l
    unfold ValidatorIndexSet.QueryRange
    rw [ValidatorIndexSet.QueryRange_foldl]
    rfl
  refine ⟨key vis, ?_, key _, key _, key _, ?_, ?_, ?_⟩
  · intro v
    rw [key]
    by_cases hv : start ≤ v ∧ v < stop
    · rw [if_pos hv]
      exact List.count_filter (decide_eq_true hv)
    · rw [if_neg hv]
      apply List.count_eq_zero.2
      intro hmem
      have := (List.mem_filter.1 hmem).2
      exact hv (of_decide_eq_true this)
  · show List.Sublist (ValidatorIndexSet.QueryRange f.surrounding start stop) _
    rw [key]; exact List.filter_sublist _
  · show List.Sublist (ValidatorIndexSet.QueryRange f.surroundedBy start stop) _
    rw [key]; exact List.filter_sublist _
  · show List.Sublist (ValidatorIndexSet.QueryRange f.double start stop) _
    rw [key]; exact List.filter_sublist _

/-! ## The ranges handed to `CheckRange` by the gate filter are empty -/

theorem ManhattenSurrounderRange_degenerate (s t d : Nat) (hst : s < t) (ht : t < 2 ^ 64)
    (hd : t - s < d) :
    ManhattenSurrounderRange s t d = .ok ((s + t) % 2 ^ 64, (s + t) % 2 ^ 64) := by
  unfold ManhattenSurrounderRange
  rw [CalcDelta_ok s t hst ht]
  simp only [if_pos hd]
  rw [if_neg (by omega)]
  congr 2 <;> omega

theorem ManhattenSurroundeeRange_degenerate (s t d : Nat) (hst : s < t) (ht : t < 2 ^ 64)
    (hd : t - s > d) (hs : 0 < s) :
    ManhattenSurroundeeRange s t d =
      .ok ((s + t - 1) % 2 ^ 64, (s + t - 1) % 2 ^ 64) := by
  unfold ManhattenSurroundeeRange
  have hs1 : (s + 2 ^ 64 - 1) % 2 ^ 64 = s - 1 := by omega
  simp only [hs1]
  rw [CalcDelta_ok (s - 1) t (by omega) ht]
  simp only [if_pos (show t - (s - 1) > d by omega)]
  have e1 : ((s - 1) * 2 + (t - (s - 1))) % 2 ^ 64 = (s + t - 1) % 2 ^ 64 := by
    omega
  have e2 : (t * 2 % 2 ^ 64 + 2 ^ 64 - (t - (s - 1))) % 2 ^ 64 = (s + t - 1) % 2 ^ 64 := by
    omega
  rw [e1, e2]

theorem ManhattenSurroundeeRange_zero (t d : Nat) (ht : t < 2 ^ 64) :
    ManhattenSurroundeeRange 0 t d = .error .invalidSourceTarget := by
  unfold ManhattenSurroundeeRange
  have he := CalcDelta_error ((0 + 2 ^ 64 - 1) % 2 ^ 64) t (by omega)
  simp only [he]

theorem MHDetectionBlock.CheckRange_same (db : MHDetectionBlock) (x : Nat) :
    db.CheckRange x x = .ok false := by
  unfold MHDetectionBlock.CheckRange
  rw [Nat.sub_self]
  rfl

theorem FuzzyCheckAndAdd.surrounderHit_false (b : MHDetectionBlock) (s t : Nat)
    (hst : s < t) (ht : t < 2 ^ 64) :
    FuzzyCheckAndAdd.surrounderHit b s t (t - s) = .ok false := by
  unfold FuzzyCheckAndAdd.surrounderHit
  by_cases hd : t - s < b.MaxDistance
  · rw [if_pos hd, ManhattenSurrounderRange_degenerate s t _ hst ht hd]
    exact MHDetectionBlock.CheckRange_same b _
  · rw [if_neg hd]

theorem FuzzyCheckAndAdd.surroundeeHit_ne_true (b : MHDetectionBlock) (s t : Nat)
    (hst : s < t) (ht : t < 2 ^ 64) :
    FuzzyCheckAndAdd.surroundeeHit b s t (t - s) ≠ .ok true := by
  unfold FuzzyCheckAndAdd.surroundeeHit
  by_cases hd : t - s > b.MinDistance
  · rw [if_pos hd]
    by_cases hs : 0 < s
    · rw [ManhattenSurroundeeRange_degenerate s t _ hst ht hd hs]
      simp only [MHDetectionBlock.CheckRange_same]
      intro h
      cases h
    · have h0 : s = 0 := by omega
      subst h0
      rw [ManhattenSurroundeeRange_zero t _ ht]
      intro h
      cases h
  · rw [if_neg hd]
    intro h
    cases h

theorem FuzzyCheckAndAdd.body_next (b b1 : MHDetectionBlock) (s t : Nat) (x : BandExit)
    (hst : s < t) (ht : t < 2 ^ 64)
    (h : FuzzyCheckAndAdd.body b s t (t - s) = (b1, .ok x)) : x = .next := by
  unfold FuzzyCheckAndAdd.body at h
  split at h
  · cases h
  · rename_i b2 _ _
    rw [FuzzyCheckAndAdd.surrounderHit_false b2 s t hst ht] at h
    simp only at h
    have hne := FuzzyCheckAndAdd.surroundeeHit_ne_true b2 s t hst ht
    split at h
    · cases h
    · rename_i heq
      exact absurd heq hne
    · simp only [Prod.mk.injEq, Except.ok.injEq] at h
      exact h.2.symm

theorem FuzzyCheckAndAdd.loop_out (s t : Nat) (focus : Focus) (hst : s < t)
    (ht : t < 2 ^ 64) :
    ∀ (blocks : List MHDetectionBlock) (out : Focus) (blocks1 : List MHDetectionBlock)
      (res : Focus),
      FuzzyCheckAndAdd.loop s t (t - s) focus blocks out = (blocks1, .ok res) →
      res = out := by
  intro blocks
  induction blocks with
  | nil =>
    intro out blocks1 res h
    simp only [FuzzyCheckAndAdd.loop, Prod.mk.injEq, Except.ok.injEq] at h
    exact h.2.symm
  | cons b rest ih =>
    intro out blocks1 res h
    simp only [FuzzyCheckAndAdd.loop] at h
    split at h
    · simp at h
    · rename_i b1 heq
      have := FuzzyCheckAndAdd.body_next b b1 s t _ hst ht heq
      cases this
    · rename_i b1 heq
      have := FuzzyCheckAndAdd.body_next b b1 s t _ hst ht heq
      cases this
    · simp only [Prod.mk.injEq] at h
      exact ih out _ res (Prod.ext rfl h.2)

/-- C19: whenever `FuzzyCheckAndAdd` returns, the output focus has empty
`surrounding` and empty `surroundedBy`, whatever the bands and their bits:
under the guard `delta < MaxDistance` the surrounder range is
`(s + t, s + t)`, and under `delta > MinDistance` the surroundee range is
`(s + t - 1, s + t - 1)` (or the helper panics, at `s = 0`), both in `uint64`
arithmetic, and `CheckRange` over a range with `start = end` is false. -/
theorem MHDetectionBlockStack.FuzzyCheckAndAdd_never_hits (bs bs1 : MHDetectionBlockStack)
    (source target : Nat) (focus : Option Focus) (out : Focus) (ht : target < 2 ^ 64)
    (h : bs.FuzzyCheckAndAdd source target focus = (bs1, .ok out)) :
    out.surrounding = [] ∧ out.surroundedBy = [] ∧
    source < target ∧
    (∀ maxD, target - source < maxD →
      ManhattenSurrounderRange source target maxD =
        .ok ((source + target) % 2 ^ 64, (source + target) % 2 ^ 64)) ∧
    (∀ minD, target - source > minD → 0 < source →
      ManhattenSurroundeeRange source target minD =
        .ok ((source + target - 1) % 2 ^ 64, (source + target - 1) % 2 ^ 64)) ∧
    (∀ (b : MHDetectionBlock) (x : Nat), b.CheckRange x x = .ok false) := by
  have hst : source < target := by
    by_contra hc
    unfold MHDetectionBlockStack.FuzzyCheckAndAdd at h
    rw [CalcDelta_error source target (by omega)] at h
    cases h
  have hout : out.surrounding = [] ∧ out.surroundedBy = [] := by
    unfold MHDetectionBlockStack.FuzzyCheckAndAdd at h
    rw [CalcDelta_ok source target hst ht] at h
    simp only at h
    split at h
    · cases h
    · rename_i f
      simp only [Prod.mk.injEq] at h
      have := FuzzyCheckAndAdd.loop_out source target f hst ht bs.blocks
        ⟨[], [], f.double⟩ _ out (Prod.ext rfl h.2)
      rw [this]
      exact ⟨rfl, rfl⟩
  exact ⟨hout.1, hout.2, hst,
    fun maxD hd => ManhattenSurrounderRange_degenerate source target maxD hst ht hd,
    fun minD hd hs => ManhattenSurroundeeRange_degenerate source target minD hst ht hd hs,
    MHDetectionBlock.CheckRange_same⟩

theorem MHDetectionBlockStack.FuzzyCheckAndAdd_never_hits_witness :
    (Focus.mk [] [] [3]).surrounding = [] ∧ (Focus.mk [] [] [3]).surroundedBy = [] ∧
    1 < 6 ∧
    (∀ maxD, 6 - 1 < maxD →
      ManhattenSurrounderRange 1 6 maxD = .ok ((1 + 6) % 2 ^ 64, (1 + 6) % 2 ^ 64)) ∧
    (∀ minD, 6 - 1 > minD → 0 < 1 →
      ManhattenSurroundeeRange 1 6 minD =
        .ok ((1 + 6 - 1) % 2 ^ 64, (1 + 6 - 1) % 2 ^ 64)) ∧
    (∀ (b : MHDetectionBlock) (x : Nat), b.CheckRange x x = .ok false) :=
  MHDetectionBlockStack.FuzzyCheckAndAdd_never_hits
    { blocks := [⟨0, 4, [0, 255]⟩, ⟨4, 8, [255, 0]⟩] }
    { blocks := [⟨0, 4, [0, 255]⟩, ⟨4, 8, [255, 0]⟩] }
    1 6 (some (NewFocus [3])) (Focus.mk [] [] [3]) (by norm_num) rfl

end Detection

namespace Eth2Surround

/-! ## The heap layout of the quadrant bit array -/

theorem BIT_DEPTH_eq : BIT_DEPTH = 22 := rfl

theorem GeoBitfieldLen_eq : GeoBitfieldLen = 2 ^ 23 := rfl

theorem MAX_MASK_eq : MAX_MASK = 2 ^ 22 - 1 := rfl

theorem two_pow_or_of_lt (d y : Nat) (h : y < 2 ^ d) : 2 ^ d ||| y = 2 ^ d + y := by
  have := Nat.mul_add_lt_is_or h 1
  rw [Nat.mul_one] at this
  exact this.symm

theorem Bitmapping_raw (x d : Nat) :
    Bitmapping x d =
      ((((1 <<< d) % 2 ^ 64) ||| (x >>> ((BIT_DEPTH + 256 - d) % 256))) / 8,
       (((1 <<< d) % 2 ^ 64) ||| (x >>> ((BIT_DEPTH + 256 - d) % 256))) % 8) := by
  unfold Bitmapping
  have h7 : ∀ n : Nat, n &&& 7 = n % 8 := fun n => Nat.and_pow_two_sub_one_eq_mod n 3
  have h3 : ∀ n : Nat, n >>> 3 = n / 8 := fun n => Nat.shiftRight_eq_div_pow n 3
  simp only [h7, h3]

theorem level_eq (d : Nat) (hd : d < 64) : (1 <<< d) % 2 ^ 64 = 2 ^ d := by
  rw [Nat.one_shiftLeft]
  exact Nat.mod_eq_of_lt (Nat.pow_lt_pow_right (by norm_num) hd)

theorem shift_count_eq (d : Nat) (hd : d ≤ 22) : (BIT_DEPTH + 256 - d) % 256 = 22 - d := by
  rw [BIT_DEPTH_eq]
  omega

theorem levelIndex_lt (x d k : Nat) (hd : d ≤ 22) (hx : x < 2 ^ (22 + k)) :
    x >>> ((BIT_DEPTH + 256 - d) % 256) < 2 ^ (d + k) := by
  rw [shift_count_eq d hd, Nat.shiftRight_eq_div_pow]
  apply Nat.div_lt_of_lt_mul
  rw [← Nat.pow_add]
  have : 22 - d + (d + k) = 22 + k := by omega
  rw [this]
  exact hx

theorem Bitmapping_eq (x d : Nat) (hx : x < 2 ^ 22) (hd : d < 22) :
    Bitmapping x d = (pathAddr x d / 8, pathAddr x d % 8) := by
  rw [Bitmapping_raw, level_eq d (by omega)]
  have hlt := levelIndex_lt x d 0 (by omega) hx
  rw [Nat.add_zero] at hlt
  rw [two_pow_or_of_lt d _ hlt]
  have e : x >>> ((BIT_DEPTH + 256 - d) % 256) = x / 2 ^ (BIT_DEPTH - d) := by
    rw [shift_count_eq d (by omega), Nat.shiftRight_eq_div_pow, BIT_DEPTH_eq]
  rw [e]
  rfl

theorem pathAddr_range (x d : Nat) (hx : x < 2 ^ 22) (hd : d < 22) :
    2 ^ d ≤ pathAddr x d ∧ pathAddr x d < 2 ^ (d + 1) := by
  have hlt : x / 2 ^ (BIT_DEPTH - d) < 2 ^ d := by
    have := levelIndex_lt x d 0 (by omega) hx
    rw [shift_count_eq d (by omega), Nat.shiftRight_eq_div_pow, Nat.add_zero] at this
    rw [BIT_DEPTH_eq]
    exact this
  unfold pathAddr
  rw [Nat.pow_succ]
  generalize x / 2 ^ (BIT_DEPTH - d) = q at hlt
  omega

theorem pathAddr_ne (x y d e : Nat) (hx : x < 2 ^ 22) (hy : y < 2 ^ 22) (hd : d < 22)
    (he : e < 22) (hne : d ≠ e) : pathAddr x d ≠ pathAddr y e := by
  have h1 := pathAddr_range x d hx hd
  have h2 := pathAddr_range y e hy he
  rcases Nat.lt_or_gt_of_ne hne with hlt | hgt
  · have : 2 ^ (d + 1) ≤ 2 ^ e := Nat.pow_le_pow_right (by norm_num) hlt
    omega
  · have : 2 ^ (e + 1) ≤ 2 ^ d := Nat.pow_le_pow_right (by norm_num) hgt
    omega

/-- C14: for a geo index `x < 2^BIT_DEPTH` and a depth `d < BIT_DEPTH`,
`Bitmapping(x, d)` returns a bit index below 8 and a byte index inside the
`GeoBitfield`, and the flat bit address `8 * byteIndex + bitIndex` is
`2^d + (x >> (BIT_DEPTH - d))`, which lies in `[2^d, 2^(d+1))`; so depth 0
maps every index to bit 1, and bits of different depths never coincide. -/
theorem Bitmapping_heap_layout (x d : Nat) (hx : x < 2 ^ BIT_DEPTH) (hd : d < BIT_DEPTH) :
    (Bitmapping x d).2 < 8 ∧
    8 * (Bitmapping x d).1 + (Bitmapping x d).2 = 2 ^ d + x >>> (BIT_DEPTH - d) ∧
    2 ^ d ≤ 8 * (Bitmapping x d).1 + (Bitmapping x d).2 ∧
    8 * (Bitmapping x d).1 + (Bitmapping x d).2 < 2 ^ (d + 1) ∧
    (Bitmapping x d).1 < GeoBitfieldLen ∧
    (d = 0 → 8 * (Bitmapping x d).1 + (Bitmapping x d).2 = 1) ∧
    (∀ y e, y < 2 ^ BIT_DEPTH → e < BIT_DEPTH → d ≠ e →
      8 * (Bitmapping x d).1 + (Bitmapping x d).2 ≠
        8 * (Bitmapping y e).1 + (Bitmapping y e).2) := by
  rw [BIT_DEPTH_eq] at hx hd
  have haddr : ∀ z c, z < 2 ^ 22 → c < 22 →
      8 * (Bitmapping z c).1 + (Bitmapping z c).2 = pathAddr z c := by
    intro z c hz hc
    rw [Bitmapping_eq z c hz hc]
    exact Nat.div_add_mod (pathAddr z c) 8
  have hr := pathAddr_range x d hx hd
  have hb : (Bitmapping x d).2 < 8 := by
    rw [Bitmapping_eq x d hx hd]
    exact Nat.mod_lt _ (by norm_num)
  have hle : 2 ^ (d + 1) ≤ 2 ^ 22 := Nat.pow_le_pow_right (by norm_num) (by omega)
  refine ⟨hb, ?_, ?_, ?_, ?_, ?_, ?_⟩
  · rw [haddr x d hx hd, Nat.shiftRight_eq_div_pow]
    rfl
  · rw [haddr x d hx hd]; exact hr.1
  · rw [haddr x d hx hd]; exact hr.2
  · have := haddr x d hx hd
    rw [GeoBitfieldLen_eq]
    omega
  · intro h0
    subst h0
    rw [haddr x 0 hx hd]
    have h1 := hr.1
    have h2 := hr.2
    simp only [Nat.pow_zero, Nat.zero_add, Nat.pow_one] at h1 h2
    omega
  · intro y e hy he hne
    rw [BIT_DEPTH_eq] at hy he
    rw [haddr x d hx hd, haddr y e hy he]
    exact pathAddr_ne x y d e hx hy hd he hne

theorem Bitmapping_heap_layout_witness :
    (Bitmapping 4 21).2 < 8 ∧
    8 * (Bitmapping 4 21).1 + (Bitmapping 4 21).2 = 2 ^ 21 + 4 >>> (BIT_DEPTH - 21) ∧
    2 ^ 21 ≤ 8 * (Bitmapping 4 21).1 + (Bitmapping 4 21).2 ∧
    8 * (Bitmapping 4 21).1 + (Bitmapping 4 21).2 < 2 ^ (21 + 1) ∧
    (Bitmapping 4 21).1 < GeoBitfieldLen ∧
    (21 = 0 → 8 * (Bitmapping 4 21).1 + (Bitmapping 4 21).2 = 1) ∧
    (∀ y e, y < 2 ^ BIT_DEPTH → e < BIT_DEPTH → 21 ≠ e →
      8 * (Bitmapping 4 21).1 + (Bitmapping 4 21).2 ≠
        8 * (Bitmapping y e).1 + (Bitmapping y e).2) :=
  Bitmapping_heap_layout 4 21 (by decide) (by decide)

/-! ## The window shift -/

theorem copyBytes_zero_len (arr : Nat → Nat) (dstOff dstLen : Nat) (src : Nat → Nat) :
    copyBytes arr dstOff dstLen src 0 = arr := by
  funext i
  unfold copyBytes
  rw [Nat.min_zero, Nat.add_zero]
  exact if_neg (by omega)

theorem GeoLookup.MoveOffset_diff (newOffset : Nat) :
    ((((newOffset + 2 ^ 64 - newOffset) % 2 ^ 64) <<< EPOCH_BITS) % 2 ^ 64 >>> ZOOM) / 8
      = 0 := by
  have h : (newOffset + 2 ^ 64 - newOffset) % 2 ^ 64 = 0 := by omega
  rw [h, Nat.zero_shiftLeft, Nat.zero_mod]

/-- What an accepted `MoveOffset` does: the offset becomes `newOffset` and
every byte of the bit array stays where it was. -/
theorem GeoLookup.MoveOffset_accepted (gl : GeoLookup) (newOffset : Nat)
    (h1 : ¬ (newOffset < gl.offset ∨ newOffset ≥ (gl.offset + EPOCHS_PER_REFRESH) % 2 ^ 64))
    (h2 : newOffset % 8 = 0) :
    gl.MoveOffset newOffset = ({ bits := gl.bits, offset := newOffset }, .ok ()) := by
  unfold GeoLookup.MoveOffset
  rw [if_neg h1, if_neg (by omega)]
  simp only [GeoLookup.MoveOffset_diff, Nat.sub_zero, copyBytes_zero_len]
  rw [if_neg (by omega)]

/-- C13: with `o + EPOCHS_PER_REFRESH < 2^64`, `MoveOffset(newOffset)` fails
with the out-of-range panic exactly when `newOffset < o` or
`newOffset >= o + EPOCHS_PER_REFRESH`; otherwise it fails with the alignment
panic exactly when `newOffset` is not a multiple of 8; a failed call leaves
offset and bits as they were; a call that fails in neither way returns and
the offset is then `newOffset`. -/
theorem GeoLookup.MoveOffset_rejection (gl : GeoLookup) (newOffset : Nat)
    (ho : gl.offset + EPOCHS_PER_REFRESH < 2 ^ 64) :
    ((gl.MoveOffset newOffset).2 = .error .offsetOutOfRange ↔
      (newOffset < gl.offset ∨ newOffset ≥ gl.offset + EPOCHS_PER_REFRESH)) ∧
    ((gl.MoveOffset newOffset).2 = .error .offsetAlignment ↔
      (¬ (newOffset < gl.offset ∨ newOffset ≥ gl.offset + EPOCHS_PER_REFRESH) ∧
        newOffset % 8 ≠ 0)) ∧
    ((gl.MoveOffset newOffset).2 ≠ .ok () →
      (gl.MoveOffset newOffset).1.offset = gl.offset ∧
      (gl.MoveOffset newOffset).1.bits = gl.bits) ∧
    ((gl.MoveOffset newOffset).2 = .ok () ↔
      (¬ (newOffset < gl.offset ∨ newOffset ≥ gl.offset + EPOCHS_PER_REFRESH) ∧
        newOffset % 8 = 0)) ∧
    ((gl.MoveOffset newOffset).2 = .ok () →
      (gl.MoveOffset newOffset).1.offset = newOffset) := by
  have hmod : (gl.offset + EPOCHS_PER_REFRESH) % 2 ^ 64 = gl.offset + EPOCHS_PER_REFRESH :=
    Nat.mod_eq_of_lt ho
  by_cases h1 : newOffset < gl.offset ∨ newOffset ≥ gl.offset + EPOCHS_PER_REFRESH
  · have hres : gl.MoveOffset newOffset = (gl, .error .offsetOutOfRange) := by
      unfold GeoLookup.MoveOffset
      rw [hmod, if_pos h1]
    rw [hres]
    refine ⟨⟨fun _ => h1, fun _ => rfl⟩, ⟨fun h => ?_, fun h => absurd h1 h.1⟩,
      fun _ => ⟨rfl, rfl⟩, ⟨fun h => ?_, fun h => absurd h1 h.1⟩, fun h => ?_⟩
    · cases h
    · cases h
    · cases h
  · by_cases h2 : newOffset % 8 = 0
    · have hres := gl.MoveOffset_accepted newOffset (by rw [hmod]; exact h1) h2
      rw [hres]
      refine ⟨⟨fun h => ?_, fun h => absurd h h1⟩, ⟨fun h => ?_, fun h => absurd h2 h.2⟩,
        fun h => absurd rfl h, ⟨fun _ => ⟨h1, h2⟩, fun _ => rfl⟩, fun _ => rfl⟩
      · cases h
      · cases h
    · have hres : gl.MoveOffset newOffset = (gl, .error .offsetAlignment) := by
        unfold GeoLookup.MoveOffset
        rw [hmod, if_neg h1, if_pos h2]
      rw [hres]
      refine ⟨⟨fun h => ?_, fun h => absurd h h1⟩, ⟨fun _ => ⟨h1, h2⟩, fun _ => rfl⟩,
        fun _ => ⟨rfl, rfl⟩, ⟨fun h => ?_, fun h => absurd h.2 h2⟩, fun h => ?_⟩
      · cases h
      · cases h
      · cases h

theorem GeoLookup.MoveOffset_rejection_witness :
    (GeoLookup.MoveOffset ⟨fun _ => 0, 16⟩ 19).2 = .error .offsetAlignment ∧
    (GeoLookup.MoveOffset ⟨fun _ => 0, 16⟩ 8).2 = .error .offsetOutOfRange ∧
    (GeoLookup.MoveOffset ⟨fun _ => 0, 16⟩ 1016).2 = .error .offsetOutOfRange ∧
    (GeoLookup.MoveOffset ⟨fun _ => 0, 16⟩ 24).2 = .ok () ∧
    (GeoLookup.MoveOffset ⟨fun _ => 0, 16⟩ 24).1.offset = 24 ∧
    (GeoLookup.MoveOffset ⟨fun _ => 0, 16⟩ 19).1.offset = 16 :=
  ⟨(GeoLookup.MoveOffset_rejection ⟨fun _ => 0, 16⟩ 19 (by decide)).2.1.2 (by decide),
   (GeoLookup.MoveOffset_rejection ⟨fun _ => 0, 16⟩ 8 (by decide)).1.2 (by decide),
   (GeoLookup.MoveOffset_rejection ⟨fun _ => 0, 16⟩ 1016 (by decide)).1.2 (by decide),
   (GeoLookup.MoveOffset_rejection ⟨fun _ => 0, 16⟩ 24 (by decide)).2.2.2.1.2 (by decide),
   (GeoLookup.MoveOffset_rejection ⟨fun _ => 0, 16⟩ 24 (by decide)).2.2.2.2 rfl,
   ((GeoLookup.MoveOffset_rejection ⟨fun _ => 0, 16⟩ 19 (by decide)).2.2.1
      (fun h => by cases h)).1⟩

/-! ## Adding an attestation to the quadrant filter -/

theorem shift_and_one_beq (m n : Nat) : (((m >>> n) &&& 1) == 1) = m.testBit n := by
  have h : m.testBit n = (m >>> n).testBit 0 := by
    rw [Nat.testBit_shiftRight, Nat.add_zero]
  rw [h, Nat.testBit_zero, Nat.and_one_is_mod]
  rcases Nat.mod_two_eq_zero_or_one (m >>> n) with h0 | h1
  · simp [h0]
  · simp [h1]

theorem pathAddr_byte_lt (x d : Nat) (hx : x < 2 ^ 22) (hd : d < 22) :
    pathAddr x d / 8 < GeoBitfieldLen := by
  have h := (pathAddr_range x d hx hd).2
  have hle : 2 ^ (d + 1) ≤ 2 ^ 22 := Nat.pow_le_pow_right (by norm_num) (by omega)
  rw [GeoBitfieldLen_eq]
  omega

theorem GeoLookup.Hit_eq (gl : GeoLookup) (x d : Nat) (hx : x < 2 ^ 22) (hd : d < 22) :
    gl.Hit x d = .ok (gl.bitAt (pathAddr x d)) := by
  unfold GeoLookup.Hit GeoLookup.bitAt
  simp only [Bitmapping_eq x d hx hd]
  rw [if_neg (by have := pathAddr_byte_lt x d hx hd; omega), shift_and_one_beq]

theorem GeoLookup.setBit_eq (gl : GeoLookup) (x i : Nat) (hx : x < 2 ^ 22) (hi : i < 22) :
    gl.setBit x i =
      ({ bits := Function.update gl.bits (pathAddr x i / 8)
          (gl.bits (pathAddr x i / 8) ||| 2 ^ (pathAddr x i % 8))
         offset := gl.offset }, .ok ()) := by
  unfold GeoLookup.setBit
  simp only [Bitmapping_eq x i hx hi]
  rw [if_neg (by have := pathAddr_byte_lt x i hx hi; omega)]
  have hj : pathAddr x i % 8 < 8 := Nat.mod_lt _ (by norm_num)
  have hp : (1 <<< (pathAddr x i % 8)) % 256 = 2 ^ (pathAddr x i % 8) := by
    rw [Nat.one_shiftLeft]
    apply Nat.mod_eq_of_lt
    calc 2 ^ (pathAddr x i % 8) < 2 ^ 8 := Nat.pow_lt_pow_right (by norm_num) hj
      _ = 256 := by norm_num
  rw [hp]

theorem GeoLookup.bitAt_update (gl : GeoLookup) (addr c : Nat) :
    GeoLookup.bitAt
        { bits := Function.update gl.bits (addr / 8) (gl.bits (addr / 8) ||| 2 ^ (addr % 8))
          offset := gl.offset } c =
      (decide (c = addr) || gl.bitAt c) := by
  unfold GeoLookup.bitAt
  by_cases hb : c / 8 = addr / 8
  · rw [hb]
    simp only [Function.update_same, Nat.testBit_or, Nat.testBit_two_pow]
    by_cases hc : c = addr
    · subst hc; simp
    · have : ¬ (addr % 8 = c % 8) := by omega
      simp [hc, this]
  · have hc : ¬ (c = addr) := by
      intro e; subst e; exact hb rfl
    simp only [Function.update_noteq hb, hc, decide_False, Bool.false_or]

theorem GeoLookup.AddAttestation.loop_sets_path (x : Nat) (hx : x < 2 ^ 22) :
    ∀ (n i : Nat) (gl : GeoLookup), i + n ≤ 22 →
      ∃ gl1, GeoLookup.AddAttestation.loop x n i gl = (gl1, .ok ()) ∧
        gl1.offset = gl.offset ∧
        ∀ c, gl1.bitAt c = true ↔
          (gl.bitAt c = true ∨ ∃ d, i ≤ d ∧ d < i + n ∧ c = pathAddr x d) := by
  intro n
  induction n with
  | zero =>
    intro i gl _
    refine ⟨gl, rfl, rfl, fun c => ⟨fun h => Or.inl h, ?_⟩⟩
    rintro (h | ⟨d, h1, h2, _⟩)
    · exact h
    · omega
  | succ n ih =>
    intro i gl h
    obtain ⟨gl2, hloop, hoff, hbits⟩ := ih (i + 1)
      { bits := Function.update gl.bits (pathAddr x i / 8)
          (gl.bits (pathAddr x i / 8) ||| 2 ^ (pathAddr x i % 8))
        offset := gl.offset } (by omega)
    refine ⟨gl2, ?_, hoff, ?_⟩
    · simp only [GeoLookup.AddAttestation.loop, GeoLookup.setBit_eq gl x i hx (by omega)]
      exact hloop
    · intro c
      rw [hbits c, GeoLookup.bitAt_update]
      constructor
      · rintro (h1 | ⟨d, h1, h2, h3⟩)
        · rcases Bool.or_eq_true _ _ ▸ h1 with h4 | h4
          · exact Or.inr ⟨i, Nat.le_refl i, by omega, of_decide_eq_true h4⟩
          · exact Or.inl h4
        · exact Or.inr ⟨d, by omega, by omega, h3⟩
      · rintro (h1 | ⟨d, h1, h2, h3⟩)
        · exact Or.inl (by rw [h1, Bool.or_true])
        · by_cases hd : d = i
          · subst hd
            exact Or.inl (by rw [decide_eq_true h3, Bool.true_or])
          · exact Or.inr ⟨d, by omega, by omega, h3⟩

theorem NewGeoIndex_ok (il : Nat → Nat → Nat) (source target offset : Nat)
    (hs : (source + 2 ^ 64 - offset) % 2 ^ 64 < EPOCH_DISTANCE)
    (ht : (target + 2 ^ 64 - offset) % 2 ^ 64 < EPOCH_DISTANCE)
    (hil : il ((source + 2 ^ 64 - offset) % 2 ^ 64) ((target + 2 ^ 64 - offset) % 2 ^ 64)
      < 2 ^ GEO_INDEX_BITS) :
    ∃ g, NewGeoIndex il source target offset = .ok g ∧ g < 2 ^ 22 ∧
      g = il ((source + 2 ^ 64 - offset) % 2 ^ 64)
            ((target + 2 ^ 64 - offset) % 2 ^ 64) / 2 ^ ZOOM := by
  have hs32 : (source + 2 ^ 64 - offset) % 2 ^ 64 % 2 ^ 32 =
      (source + 2 ^ 64 - offset) % 2 ^ 64 := by
    apply Nat.mod_eq_of_lt
    have : EPOCH_DISTANCE = 54000 := rfl
    omega
  have ht32 : (target + 2 ^ 64 - offset) % 2 ^ 64 % 2 ^ 32 =
      (target + 2 ^ 64 - offset) % 2 ^ 64 := by
    apply Nat.mod_eq_of_lt
    have : EPOCH_DISTANCE = 54000 := rfl
    omega
  have hG : GEO_INDEX_BITS = 32 := rfl
  have hZ : ZOOM = 10 := rfl
  rw [hG] at hil
  refine ⟨_, ?_, ?_, rfl⟩
  · unfold NewGeoIndex
    rw [if_neg (by omega), hs32, ht32, Nat.shiftRight_eq_div_pow,
      Nat.mod_eq_of_lt (by omega)]
  · rw [hZ]
    omega

theorem GeoLookup.AddAttestation_eq (il : Nat → Nat → Nat) (gl : GeoLookup)
    (att : Attestation) (g : Nat) (hg : NewGeoIndex il att.Source att.Target gl.offset = .ok g) :
    gl.AddAttestation il att = GeoLookup.AddAttestation.loop g BIT_DEPTH 0 gl := by
  unfold GeoLookup.AddAttestation
  rw [hg]

/-- C15: for an attestation whose source and target lie in the window, with
`g = NewGeoIndex(source, target, offset)` (the interleaving of two offsets
below `EPOCH_DISTANCE` being below `2^GEO_INDEX_BITS`), `AddAttestation`
returns; afterwards `Hit(g, d)` is true at every depth `d < BIT_DEPTH`, every
bit set before is still set, a bit differs from before only at one of the
`BIT_DEPTH` path addresses `2^d + (g >> (BIT_DEPTH - d))`, and the offset is
unchanged. -/
theorem GeoLookup.AddAttestation_path (il : Nat → Nat → Nat) (gl : GeoLookup)
    (att : Attestation)
    (hs : (att.Source + 2 ^ 64 - gl.offset) % 2 ^ 64 < EPOCH_DISTANCE)
    (ht : (att.Target + 2 ^ 64 - gl.offset) % 2 ^ 64 < EPOCH_DISTANCE)
    (hil : il ((att.Source + 2 ^ 64 - gl.offset) % 2 ^ 64)
        ((att.Target + 2 ^ 64 - gl.offset) % 2 ^ 64) < 2 ^ GEO_INDEX_BITS) :
    ∃ g gl1, NewGeoIndex il att.Source att.Target gl.offset = .ok g ∧
      g < 2 ^ BIT_DEPTH ∧
      gl.AddAttestation il att = (gl1, .ok ()) ∧
      (∀ d, d < BIT_DEPTH → gl1.Hit g d = .ok true) ∧
      (∀ c, gl.bitAt c = true → gl1.bitAt c = true) ∧
      (∀ c, (∀ d, d < BIT_DEPTH → c ≠ pathAddr g d) → gl1.bitAt c = gl.bitAt c) ∧
      (∀ d, d < BIT_DEPTH →
        pathAddr g d = 8 * (Bitmapping g d).1 + (Bitmapping g d).2) ∧
      gl1.offset = gl.offset := by
  obtain ⟨g, hg, hlt, _⟩ := NewGeoIndex_ok il att.Source att.Target gl.offset hs ht hil
  obtain ⟨gl1, hloop, hoff, hbits⟩ :=
    GeoLookup.AddAttestation.loop_sets_path g hlt 22 0 gl (by omega)
  refine ⟨g, gl1, hg, hlt, ?_, ?_, ?_, ?_, ?_, hoff⟩
  · rw [GeoLookup.AddAttestation_eq il gl att g hg]
    exact hloop
  · intro d hd
    rw [BIT_DEPTH_eq] at hd
    rw [GeoLookup.Hit_eq gl1 g d hlt hd]
    congr 1
    exact (hbits _).2 (Or.inr ⟨d, Nat.zero_le d, by omega, rfl⟩)
  · intro c hc
    exact (hbits c).2 (Or.inl hc)
  · intro c hc
    cases h1 : gl.bitAt c
    · cases h2 : gl1.bitAt c
      · rfl
      · rcases (hbits c).1 h2 with h3 | ⟨d, _, h4, h5⟩
        · rw [h1] at h3
          cases h3
        · exact absurd h5 (hc d (by rw [BIT_DEPTH_eq]; omega))
    · exact (hbits c).2 (Or.inl h1)
  · intro d hd
    rw [BIT_DEPTH_eq] at hd
    rw [Bitmapping_eq g d hlt hd]
    exact (Nat.div_add_mod (pathAddr g d) 8).symm

theorem GeoLookup.AddAttestation_path_witness :
    ∃ g gl1, NewGeoIndex InterleaveUint32 0 64 0 = .ok g ∧
      g < 2 ^ BIT_DEPTH ∧
      GeoLookup.AddAttestation InterleaveUint32 GeoLookup.zero ⟨0, 64, 0⟩ = (gl1, .ok ()) ∧
      (∀ d, d < BIT_DEPTH → gl1.Hit g d = .ok true) ∧
      (∀ c, GeoLookup.zero.bitAt c = true → gl1.bitAt c = true) ∧
      (∀ c, (∀ d, d < BIT_DEPTH → c ≠ pathAddr g d) →
        gl1.bitAt c = GeoLookup.zero.bitAt c) ∧
      (∀ d, d < BIT_DEPTH →
        pathAddr g d = 8 * (Bitmapping g d).1 + (Bitmapping g d).2) ∧
      gl1.offset = GeoLookup.zero.offset :=
  GeoLookup.AddAttestation_path InterleaveUint32 GeoLookup.zero ⟨0, 64, 0⟩
    (by decide) (by decide) (by decide)

end Eth2Surround

namespace Detection

/-! ## Adding twice -/

theorem MHBitfield.Set_idem (b : MHBitfield) (i : Nat) : (b.Set i).1.Set i = b.Set i := by
  by_cases h : i < b.length * 8
  · have hk : i / 8 < b.length := by omega
    have hlen : i < (b.set (i / 8) (b.getD (i / 8) 0 ||| 2 ^ (i % 8))).length * 8 := by
      rw [List.length_set]; exact h
    rw [MHBitfield.Set_ok b i h]
    simp only
    rw [MHBitfield.Set_ok _ i hlen]
    have hget : (b.set (i / 8) (b.getD (i / 8) 0 ||| 2 ^ (i % 8))).getD (i / 8) 0 =
        b.getD (i / 8) 0 ||| 2 ^ (i % 8) := by
      simp only [List.getD_eq_getElem?_getD, List.getElem?_set_self hk, Option.getD_some]
    rw [hget, List.set_set, Nat.or_assoc, Nat.or_self]
  · rw [MHBitfield.Set_error b i (by omega)]
    simp only
    rw [MHBitfield.Set_error b i (by omega)]

theorem MHDetectionBlock.Add_idem (db : MHDetectionBlock) (source target : Nat) :
    (db.Add source target).1.Add source target = db.Add source target := by
  have happ : ∀ bits1 : MHBitfield,
      MHDetectionBlock.Applicable { db with bits := bits1 } source target =
        db.Applicable source target := fun _ => rfl
  cases hA : db.Applicable source target with
  | error e =>
    have h1 : db.Add source target = (db, .error e) := by
      unfold MHDetectionBlock.Add
      rw [hA]
    rw [h1]
    exact h1
  | ok r =>
    cases r with
    | false =>
      have h1 : db.Add source target = (db, .error .invalidAttestation) := by
        unfold MHDetectionBlock.Add
        rw [hA]
      rw [h1]
      exact h1
    | true =>
      have h1 : ∀ d : MHDetectionBlock, d.Applicable source target = .ok true →
          d.Add source target =
            ({ d with bits := (d.bits.Set (Manhatten source target)).1 },
              (d.bits.Set (Manhatten source target)).2) := by
        intro d hd
        unfold MHDetectionBlock.Add
        rw [hd]
      rw [h1 db hA]
      simp only
      rw [h1 _ ((happ _).trans hA)]
      simp only [MHBitfield.Set_idem]

end Detection

namespace Eth2Surround

theorem or_two_pow_of_testBit (x k : Nat) (h : x.testBit k = true) : x ||| 2 ^ k = x := by
  apply Nat.eq_of_testBit_eq
  intro i
  rw [Nat.testBit_or, Nat.testBit_two_pow]
  by_cases hki : k = i
  · subst hki
    rw [h]
    rfl
  · simp [hki]

theorem GeoLookup.AddAttestation.loop_fixed (x : Nat) (hx : x < 2 ^ 22) :
    ∀ (n i : Nat) (gl : GeoLookup), i + n ≤ 22 →
      (∀ d, i ≤ d → d < i + n → gl.bitAt (pathAddr x d) = true) →
      GeoLookup.AddAttestation.loop x n i gl = (gl, .ok ()) := by
  intro n
  induction n with
  | zero =>
    intro i gl _ _
    rfl
  | succ n ih =>
    intro i gl h hset
    have hbit : (gl.bits (pathAddr x i / 8)).testBit (pathAddr x i % 8) = true :=
      hset i (Nat.le_refl i) (by omega)
    have hsame : GeoLookup.mk
        (Function.update gl.bits (pathAddr x i / 8)
          (gl.bits (pathAddr x i / 8) ||| 2 ^ (pathAddr x i % 8)))
        gl.offset = gl := by
      rw [or_two_pow_of_testBit _ _ hbit, Function.update_eq_self]
    simp only [GeoLookup.AddAttestation.loop, GeoLookup.setBit_eq gl x i hx (by omega), hsame]
    exact ih (i + 1) gl (by omega) (fun d h1 h2 => hset d (by omega) (by omega))

/-- C16: adding is idempotent in both filters. A second
`MHDetectionBlock.Add` with the same `(source, target)` leaves the band, bit
array included, as the first call left it (and ends as the first did); and
for an in-window attestation a second `AddAttestation` leaves the lookup as
the first call left it. -/
theorem Add_idempotent (db : Detection.MHDetectionBlock) (source target : Nat)
    (il : Nat → Nat → Nat) (gl : GeoLookup) (att : Attestation)
    (hs : (att.Source + 2 ^ 64 - gl.offset) % 2 ^ 64 < EPOCH_DISTANCE)
    (ht : (att.Target + 2 ^ 64 - gl.offset) % 2 ^ 64 < EPOCH_DISTANCE)
    (hil : il ((att.Source + 2 ^ 64 - gl.offset) % 2 ^ 64)
        ((att.Target + 2 ^ 64 - gl.offset) % 2 ^ 64) < 2 ^ GEO_INDEX_BITS) :
    ((db.Add source target).1.Add source target).1.bits = (db.Add source target).1.bits ∧
    (db.Add source target).1.Add source target = db.Add source target ∧
    (gl.AddAttestation il att).2 = .ok () ∧
    (gl.AddAttestation il att).1.AddAttestation il att = gl.AddAttestation il att := by
  have hband := Detection.MHDetectionBlock.Add_idem db source target
  obtain ⟨g, hg, hlt, _⟩ := NewGeoIndex_ok il att.Source att.Target gl.offset hs ht hil
  obtain ⟨gl1, hloop, hoff, hbits⟩ :=
    GeoLookup.AddAttestation.loop_sets_path g hlt 22 0 gl (by omega)
  have h1 : gl.AddAttestation il att = (gl1, .ok ()) := by
    rw [GeoLookup.AddAttestation_eq il gl att g hg]
    exact hloop
  have hg1 : NewGeoIndex il att.Source att.Target gl1.offset = .ok g := by
    rw [hoff]; exact hg
  have h2 : gl1.AddAttestation il att = (gl1, .ok ()) := by
    rw [GeoLookup.AddAttestation_eq il gl1 att g hg1]
    exact GeoLookup.AddAttestation.loop_fixed g hlt 22 0 gl1 (by omega)
      (fun d h3 h4 => (hbits _).2 (Or.inr ⟨d, h3, h4, rfl⟩))
  refine ⟨by rw [hband], hband, by rw [h1], ?_⟩
  rw [h1]
  exact h2

theorem Add_idempotent_witness :
    ((Detection.MHDetectionBlock.Add ⟨0, 8, [0, 0]⟩ 3 6).1.Add 3 6).1.bits =
      (Detection.MHDetectionBlock.Add ⟨0, 8, [0, 0]⟩ 3 6).1.bits ∧
    (Detection.MHDetectionBlock.Add ⟨0, 8, [0, 0]⟩ 3 6).1.Add 3 6 =
      Detection.MHDetectionBlock.Add ⟨0, 8, [0, 0]⟩ 3 6 ∧
    (GeoLookup.zero.AddAttestation InterleaveUint32 ⟨0, 64, 0⟩).2 = .ok () ∧
    (GeoLookup.zero.AddAttestation InterleaveUint32 ⟨0, 64, 0⟩).1.AddAttestation
        InterleaveUint32 ⟨0, 64, 0⟩ =
      GeoLookup.zero.AddAttestation InterleaveUint32 ⟨0, 64, 0⟩ :=
  Add_idempotent ⟨0, 8, [0, 0]⟩ 3 6 InterleaveUint32 GeoLookup.zero ⟨0, 64, 0⟩
    (by decide) (by decide) (by decide)

/-! ## The code at the inputs where it departs from its specification -/

/-- C12: an accepted `MoveOffset` moves no data. On the lookup that holds the
attestation `(0, 64)` at offset 0, `MoveOffset(8)` returns with offset 8; the
shift derived from the previous offset would be `k = 64` bytes, and byte 0
would become the old byte 64, which is 1; the code computes `diff` from the
offset it has just overwritten, so `diff = 0`, and byte 0 is still 22, as is
every other byte. The same holds with the interleaving read the other way. -/
theorem GeoLookup.MoveOffset_moves_nothing :
    (GeoLookup.zero.AddAttestation InterleaveUint32 ⟨0, 64, 0⟩).2 = .ok () ∧
    ((GeoLookup.zero.AddAttestation InterleaveUint32 ⟨0, 64, 0⟩).1.MoveOffset 8).2 = .ok () ∧
    ((GeoLookup.zero.AddAttestation InterleaveUint32 ⟨0, 64, 0⟩).1.MoveOffset 8).1.offset = 8 ∧
    (((8 - 0) <<< EPOCH_BITS) >>> ZOOM) / 8 = 64 ∧
    (GeoLookup.zero.AddAttestation InterleaveUint32 ⟨0, 64, 0⟩).1.bits 0 = 22 ∧
    (GeoLookup.zero.AddAttestation InterleaveUint32 ⟨0, 64, 0⟩).1.bits (0 + 64) = 1 ∧
    ((GeoLookup.zero.AddAttestation InterleaveUint32 ⟨0, 64, 0⟩).1.MoveOffset 8).1.bits 0
      = 22 ∧
    ((GeoLookup.zero.AddAttestation InterleaveUint32 ⟨0, 64, 0⟩).1.MoveOffset 8).1.bits =
      (GeoLookup.zero.AddAttestation InterleaveUint32 ⟨0, 64, 0⟩).1.bits ∧
    (GeoLookup.zero.AddAttestation InterleaveUint32.swapped ⟨0, 64, 0⟩).1.bits 0 = 22 ∧
    (GeoLookup.zero.AddAttestation InterleaveUint32.swapped ⟨0, 64, 0⟩).1.bits (0 + 64) = 1 ∧
    ((GeoLookup.zero.AddAttestation InterleaveUint32.swapped ⟨0, 64, 0⟩).1.MoveOffset 8).1.bits
      0 = 22 := by
  have hacc : ∀ gl : GeoLookup, gl.offset = 0 →
      gl.MoveOffset 8 = ({ bits := gl.bits, offset := 8 }, .ok ()) := by
    intro gl h0
    apply GeoLookup.MoveOffset_accepted
    · rw [h0]
      decide
    · rfl
  have hA := hacc (GeoLookup.zero.AddAttestation InterleaveUint32 ⟨0, 64, 0⟩).1 rfl
  have hB := hacc (GeoLookup.zero.AddAttestation InterleaveUint32.swapped ⟨0, 64, 0⟩).1 rfl
  rw [hA, hB]
  refine ⟨rfl, rfl, rfl, rfl, ?_, ?_, ?_, rfl, ?_, ?_, ?_⟩ <;> decide

/-- C18: `MatchAttestation` reports a quadrant whose bit is not set. The lookup
holds the one attestation `(0, 64)` and is queried with `(0, 32)`, at offset 0.
With the second value on the even bits the geo indices are 4 and 1, the result
is `surroundedBy = [6, 4194310]`, and `Hit(6, BIT_DEPTH - 1)` is false; with
the first value on the even bits they are 8 and 2, the result is
`surroundedBy = [10, 4194314]`, and `Hit(10, BIT_DEPTH - 1)` is false. The
second `if` of `match` tests the bit of `a` and appends `b`. -/
theorem GeoLookup.MatchAttestation_reports_unset :
    NewGeoIndex InterleaveUint32.swapped 0 64 0 = .ok 4 ∧
    NewGeoIndex InterleaveUint32.swapped 0 32 0 = .ok 1 ∧
    (GeoLookup.zero.AddAttestation InterleaveUint32.swapped ⟨0, 64, 0⟩).1.MatchAttestation
        InterleaveUint32.swapped BIT_DEPTH ⟨0, 32, 0⟩ = .ok ([], [6, 4194310]) ∧
    (GeoLookup.zero.AddAttestation InterleaveUint32.swapped ⟨0, 64, 0⟩).1.Hit 6
        (BIT_DEPTH - 1) = .ok false ∧
    (GeoLookup.zero.AddAttestation InterleaveUint32.swapped ⟨0, 64, 0⟩).1.Hit 4
        (BIT_DEPTH - 1) = .ok true ∧
    NewGeoIndex InterleaveUint32 0 64 0 = .ok 8 ∧
    NewGeoIndex InterleaveUint32 0 32 0 = .ok 2 ∧
    (GeoLookup.zero.AddAttestation InterleaveUint32 ⟨0, 64, 0⟩).1.MatchAttestation
        InterleaveUint32 BIT_DEPTH ⟨0, 32, 0⟩ = .ok ([], [10, 4194314]) ∧
    (GeoLookup.zero.AddAttestation InterleaveUint32 ⟨0, 64, 0⟩).1.Hit 10
        (BIT_DEPTH - 1) = .ok false ∧
    (GeoLookup.zero.AddAttestation InterleaveUint32 ⟨0, 64, 0⟩).1.Hit 8
        (BIT_DEPTH - 1) = .ok true := by
  refine ⟨?_, ?_, ?_, ?_, ?_, ?_, ?_, ?_, ?_, ?_⟩ <;> rfl

/-! ## Termination of the quadrant descent -/

theorem GeoLookup.Hit_in_bounds (gl : GeoLookup) (q d : Nat) (hq : q < 2 ^ 23) (hd : d < 22) :
    ∃ h, gl.Hit q d = .ok h := by
  have hl := levelIndex_lt q d 1 (by omega) hq
  have h2 : (2 : Nat) ^ d < 2 ^ (d + 1) := Nat.pow_lt_pow_right (by norm_num) (by omega)
  have hor := Nat.or_lt_two_pow h2 hl
  have hle : (2 : Nat) ^ (d + 1) ≤ 2 ^ 22 := Nat.pow_le_pow_right (by norm_num) (by omega)
  have hb : ¬ (Bitmapping q d).1 ≥ GeoBitfieldLen := by
    rw [Bitmapping_raw, level_eq d (by omega), GeoBitfieldLen_eq]
    show ¬ (2 ^ d ||| q >>> ((BIT_DEPTH + 256 - d) % 256)) / 8 ≥ 2 ^ 23
    generalize 2 ^ d ||| q >>> ((BIT_DEPTH + 256 - d) % 256) = v at hor
    generalize (2 : Nat) ^ (d + 1) = w at hor hle
    omega
  unfold GeoLookup.Hit
  exact ⟨_, if_neg hb⟩

theorem match_quadrant_lt (c d : Nat) (hc : c < 2 ^ 23) (hd : d < 22) :
    c - (c &&& (MAX_MASK >>> d)) < 2 ^ 23 ∧
    (c - (c &&& (MAX_MASK >>> d))) ^^^ ((1 <<< ((BIT_DEPTH + 256 - d) % 256)) % 2 ^ 64)
      < 2 ^ 23 := by
  have ha : c - (c &&& (MAX_MASK >>> d)) < 2 ^ 23 := lt_of_le_of_lt (Nat.sub_le _ _) hc
  refine ⟨ha, Nat.xor_lt_two_pow ha ?_⟩
  rw [shift_count_eq d (by omega), level_eq (22 - d) (by omega)]
  exact Nat.pow_lt_pow_right (by norm_num) (by omega)

theorem GeoLookup.matchBranch_ok (gl : GeoLookup) (index depth next : Nat) (cond : Bool)
    (q rep : Nat) (toSurrounds : Bool)
    (deeper : Unit → Except GeoPanic (List Nat × List Nat)) (acc : List Nat × List Nat)
    (hhit : ∃ h, gl.Hit q depth = .ok h)
    (hdeep : cond = true →
      (next == BIT_DEPTH && q != index) = true ∨ ∃ r, deeper () = .ok r) :
    ∃ r, gl.matchBranch index depth next cond q rep toSurrounds deeper acc = .ok r := by
  obtain ⟨h, hh⟩ := hhit
  unfold GeoLookup.matchBranch
  cases cond with
  | false => exact ⟨acc, rfl⟩
  | true =>
    rw [if_pos rfl, hh]
    cases h with
    | false => exact ⟨acc, rfl⟩
    | true =>
      by_cases hl : (next == BIT_DEPTH && q != index) = true
      · simp only [hl, if_true]
        cases toSurrounds
        · exact ⟨_, rfl⟩
        · exact ⟨_, rfl⟩
      · rcases hdeep rfl with hl1 | ⟨r, hr⟩
        · exact absurd hl1 hl
        · simp only [hl, hr]
          exact ⟨_, rfl⟩

theorem GeoLookup.matchBranch_congr (gl : GeoLookup) (index depth next : Nat) (cond : Bool)
    (q rep : Nat) (toSurrounds : Bool)
    (deeper deeper1 : Unit → Except GeoPanic (List Nat × List Nat))
    (acc : List Nat × List Nat)
    (h : cond = true → (next == BIT_DEPTH && q != index) = false → deeper () = deeper1 ()) :
    gl.matchBranch index depth next cond q rep toSurrounds deeper acc =
      gl.matchBranch index depth next cond q rep toSurrounds deeper1 acc := by
  unfold GeoLookup.matchBranch
  cases cond with
  | false => rfl
  | true =>
    by_cases hl : (next == BIT_DEPTH && q != index) = true
    · simp only [hl, if_true]
    · have hl1 : (next == BIT_DEPTH && q != index) = false := by
        cases hv : (next == BIT_DEPTH && q != index)
        · rfl
        · exact absurd hv hl
      rw [h rfl hl1]

theorem match_flip_next (d : Nat) : (!decide (d % 2 = 0)) = decide ((d + 1) % 2 = 0) := by
  rcases Nat.mod_two_eq_zero_or_one d with h | h
  · have h1 : (d + 1) % 2 = 1 := by omega
    simp [h, h1]
  · have h1 : (d + 1) % 2 = 0 := by omega
    simp [h, h1]

theorem match_leaf_reports (q index : Nat) (cond : Bool)
    (hq : cond = true → q ≠ index) (hc : cond = true) :
    (((21 + 1) % 256 == BIT_DEPTH) && q != index) = true := by
  have hne := hq hc
  have h1 : ((21 + 1) % 256 == BIT_DEPTH) = true := by decide
  rw [h1, Bool.true_and]
  simpa using hne

theorem match_side_lt (flip : Bool) (q index : Nat) :
    (flip != decide (q < index)) = true → flip = false → q ≠ index := by
  intro hc hf
  subst hf
  simp at hc
  omega

theorem match_side_gt (flip : Bool) (q index : Nat) :
    (flip != decide (q > index)) = true → flip = false → q ≠ index := by
  intro hc hf
  subst hf
  simp at hc
  omega

theorem GeoLookup.match_ok (gl : GeoLookup) (index : Nat) :
    ∀ fuel d current, d + fuel = 22 → 1 ≤ fuel → current < 2 ^ 23 →
      ∃ r, gl.match_ index fuel current d (decide (d % 2 = 0)) = .ok r := by
  intro fuel
  induction fuel with
  | zero =>
    intro d c _ h
    omega
  | succ n ih =>
    intro d c hd _ hc
    obtain ⟨ha, hb⟩ := match_quadrant_lt c d hc (by omega)
    have hbr : ∀ (q : Nat) (cond : Bool) (rep : Nat) (ts : Bool) (acc : List Nat × List Nat),
        q < 2 ^ 23 → (cond = true → decide (d % 2 = 0) = false → q ≠ index) →
        ∃ r, gl.matchBranch index d ((d + 1) % 256) cond q rep ts
          (fun _ => GeoLookup.match_ gl index n q ((d + 1) % 256) (!decide (d % 2 = 0)))
          acc = .ok r := by
      intro q cond rep ts acc hq hcond
      apply GeoLookup.matchBranch_ok
      · exact gl.Hit_in_bounds q d hq (by omega)
      · intro hcnd
        rcases Nat.eq_zero_or_pos n with h0 | hpos
        · left
          have hd21 : d = 21 := by omega
          subst hd21
          exact match_leaf_reports q index cond (fun h => hcond h (by decide)) hcnd
        · right
          have e1 : (d + 1) % 256 = d + 1 := by omega
          rw [e1, match_flip_next]
          exact ih (d + 1) q (by omega) hpos hq
    simp only [GeoLookup.match_]
    obtain ⟨r1, h1⟩ := hbr _ _ (c - (c &&& (MAX_MASK >>> d))) true ([], []) ha
      (match_side_lt _ _ index)
    rw [h1]
    simp only []
    obtain ⟨r2, h2⟩ := hbr _ _
      ((c - (c &&& (MAX_MASK >>> d))) ^^^ ((1 <<< ((BIT_DEPTH + 256 - d) % 256)) % 2 ^ 64))
      false r1 ha (match_side_gt _ _ index)
    rw [h2]
    simp only []
    obtain ⟨r3, h3⟩ := hbr _ _
      ((c - (c &&& (MAX_MASK >>> d))) ^^^ ((1 <<< ((BIT_DEPTH + 256 - d) % 256)) % 2 ^ 64))
      true r2 hb (match_side_lt _ _ index)
    rw [h3]
    simp only []
    exact hbr _ _ _ false r3 hb (match_side_gt _ _ index)

theorem GeoLookup.match_fuel (gl : GeoLookup) (index m : Nat) :
    ∀ fuel d current, d + fuel = 22 → 1 ≤ fuel →
      gl.match_ index (fuel + m) current d (decide (d % 2 = 0)) =
        gl.match_ index fuel current d (decide (d % 2 = 0)) := by
  intro fuel
  induction fuel with
  | zero =>
    intro d c _ h
    omega
  | succ n ih =>
    intro d c hd _
    have hbr : ∀ (q : Nat) (cond : Bool) (rep : Nat) (ts : Bool),
        (cond = true → decide (d % 2 = 0) = false → q ≠ index) →
        ∀ acc : List Nat × List Nat,
        gl.matchBranch index d ((d + 1) % 256) cond q rep ts
          (fun _ => GeoLookup.match_ gl index (n + m) q ((d + 1) % 256)
            (!decide (d % 2 = 0))) acc =
        gl.matchBranch index d ((d + 1) % 256) cond q rep ts
          (fun _ => GeoLookup.match_ gl index n q ((d + 1) % 256) (!decide (d % 2 = 0)))
          acc := by
      intro q cond rep ts hcond acc
      apply GeoLookup.matchBranch_congr
      intro hcnd hl
      rcases Nat.eq_zero_or_pos n with h0 | hpos
      · have hd21 : d = 21 := by omega
        subst hd21
        have := match_leaf_reports q index cond (fun h => hcond h (by decide)) hcnd
        rw [hl] at this
        cases this
      · have e1 : (d + 1) % 256 = d + 1 := by omega
        simp only [e1, match_flip_next]
        exact ih (d + 1) q (by omega) hpos
    have e : n + 1 + m = (n + m) + 1 := by omega
    rw [e]
    simp only [GeoLookup.match_]
    simp only [hbr _ _ (c - (c &&& (MAX_MASK >>> d))) true (match_side_lt _ _ index),
      hbr _ _
        ((c - (c &&& (MAX_MASK >>> d))) ^^^ ((1 <<< ((BIT_DEPTH + 256 - d) % 256)) % 2 ^ 64))
        false (match_side_gt _ _ index),
      hbr _ _
        ((c - (c &&& (MAX_MASK >>> d))) ^^^ ((1 <<< ((BIT_DEPTH + 256 - d) % 256)) % 2 ^ 64))
        true (match_side_lt _ _ index),
      hbr _ _
        ((c - (c &&& (MAX_MASK >>> d))) ^^^ ((1 <<< ((BIT_DEPTH + 256 - d) % 256)) % 2 ^ 64))
        false (match_side_gt _ _ index)]

/-- C20: the quadrant descent terminates at the leaf level. For every bit
state and every query geo index below `2 ^ BIT_DEPTH`, the call
`match(index, index, 0, true)` returns a result when at most `BIT_DEPTH` calls
may be nested, so no call is made with depth `BIT_DEPTH` or more and no read of
the bit array is out of range (either would be an error value); allowing more
nesting does not change the result; a call at depth `BIT_DEPTH - 1`, where the
flip flag is false, returns with no nested call at all; and `Hit` is in range
for every quadrant value the descent forms, at every depth below `BIT_DEPTH`. -/
theorem GeoLookup.match_terminates (gl : GeoLookup) (index : Nat)
    (hindex : index < 2 ^ BIT_DEPTH) :
    (∃ r, gl.match_ index BIT_DEPTH index 0 true = .ok r) ∧
    (∀ n, gl.match_ index (BIT_DEPTH + n) index 0 true =
      gl.match_ index BIT_DEPTH index 0 true) ∧
    (∀ current, current < 2 ^ (BIT_DEPTH + 1) →
      ∃ r, gl.match_ index 1 current (BIT_DEPTH - 1) false = .ok r) ∧
    (∀ q d, q < 2 ^ (BIT_DEPTH + 1) → d < BIT_DEPTH → ∃ h, gl.Hit q d = .ok h) := by
  have hi : index < 2 ^ 23 := by
    rw [BIT_DEPTH_eq] at hindex
    omega
  refine ⟨?_, ?_, ?_, ?_⟩
  · exact gl.match_ok index 22 0 index rfl (by omega) hi
  · intro n
    exact gl.match_fuel index n 22 0 index rfl (by omega)
  · intro current hc
    exact gl.match_ok index 1 21 current rfl (by omega) hc
  · intro q d hq hd
    exact gl.Hit_in_bounds q d hq hd

theorem GeoLookup.match_terminates_witness :
    2 < 2 ^ BIT_DEPTH ∧
    ∃ r, (GeoLookup.zero.AddAttestation InterleaveUint32 ⟨0, 64, 0⟩).1.match_ 2 BIT_DEPTH 2 0
      true = .ok r :=
  ⟨by decide,
    (GeoLookup.match_terminates (GeoLookup.zero.AddAttestation InterleaveUint32 ⟨0, 64, 0⟩).1
      2 (by decide)).1⟩

end Eth2Surround
